import Mathlib

/-!
Verification development for the Kismet bytecode decompiler.

The Rust sources are embedded shallowly:
* machine integers become `Nat` / `Int` with explicit wrap-around where it matters;
* `HashMap` / `BTreeMap` values become association lists (`List (Nat × Nat)` etc.)
  with insert-overwrite semantics;
* `HashSet` values become duplicate-free `List Nat` used only through membership
  and length (cardinality);
* Rust panics (out-of-bounds indexing, `unwrap`) become `Option`/dedicated
  constructors;
* unbounded `while` loops become fuel-indexed recursion; every theorem that
  depends on a loop's result either holds for all fuels or carries a hypothesis
  under which the canonical fuel is proven sufficient.
-/

set_option maxHeartbeats 1000000
set_option maxRecDepth 100000

/-- Association-list lookup, mirroring `BTreeMap::get` / `HashMap::get`
(first binding wins; the insert below keeps keys unique). -/
def lookupA {κ α : Type} [DecidableEq κ] : List (κ × α) → κ → Option α
  | [], _ => none
  | (k', v) :: t, k => if k = k' then some v else lookupA t k

/-- Association-list insert with overwrite, mirroring `BTreeMap::insert` /
`HashMap::insert`. -/
def insertA {κ α : Type} [DecidableEq κ] : List (κ × α) → κ → α → List (κ × α)
  | [], k, v => [(k, v)]
  | (k', v') :: t, k, v => if k = k' then (k, v) :: t else (k', v') :: insertA t k v

/-- One `while let Some(&next) = map.get(&current)` walk, collecting the visited
values until the stop condition fires, the key is absent, or fuel runs out.
Both `DominatorTree::dominates` and the `PostDominatorTree` chain walks are
instances (with different stop conditions).  Fuel `m.length + 1` is proven
sufficient whenever the map admits a decreasing rank (`chainWalk_length_le`,
`chainWalk_stable`). -/
def chainWalk (m : List (Nat × Nat)) (stop : Nat → Nat → Bool) : Nat → Nat → List Nat
  | 0, _ => []
  | fuel + 1, cur =>
    match lookupA m cur with
    | none => []
    | some i => if stop cur i then [] else i :: chainWalk m stop fuel i

/-- Canonical-fuel chain from a node. -/
def cchain (m : List (Nat × Nat)) (stop : Nat → Nat → Bool) (cur : Nat) : List Nat :=
  chainWalk m stop (m.length + 1) cur

/-- Modelled from the spec (§7 error kinds): the error enumeration the
specification claims the reader uses.  No such type exists anywhere in the
source; it is declared here only so the claimed failure mode can be compared
with the code's actual behaviour. -/
inductive ErrorKind where
  | Truncated
  | MalformedStream
  | UnknownOpcode
  | UnresolvedRef
  | StructuringIncomplete
deriving DecidableEq

/-- Outcome of a primitive read.  `ok value newOffset` embeds a normal return
(the cursor argument is `&mut usize` in Rust, modelled by returning the new
offset); `panicked` embeds a Rust panic — the out-of-bounds slice index the
source performs; `err` embeds the spec-claimed error return, which the source
never produces. -/
inductive ReadResult (α : Type) where
  | ok (value : α) (offset : Nat)
  | panicked
  | err (e : ErrorKind)
deriving DecidableEq

/-- Little-endian value of `n` bytes of `script` starting at `offset`
(`u16::from_le_bytes` / `i32::from_le_bytes` / `u64::from_le_bytes`). -/
def leValue (script : List Nat) (offset : Nat) : Nat → Nat
  | 0 => 0
  | n + 1 => script.getD offset 0 + 256 * leValue script (offset + 1) n

/-- `ScriptReader::read_byte`: `self.script[*offset]`, a panicking index. -/
def read_byte (script : List Nat) (offset : Nat) : ReadResult Nat :=
  if offset < script.length then .ok (script.getD offset 0) (offset + 1) else .panicked

/-- `ScriptReader::read_word`: 2-byte little-endian slice read. -/
def read_word (script : List Nat) (offset : Nat) : ReadResult Nat :=
  if offset + 2 ≤ script.length then .ok (leValue script offset 2) (offset + 2) else .panicked

/-- `ScriptReader::read_int`: 4-byte little-endian two's-complement `i32`. -/
def read_int (script : List Nat) (offset : Nat) : ReadResult Int :=
  if offset + 4 ≤ script.length then
    .ok (let n := leValue script offset 4
         if n < 2 ^ 31 then (n : Int) else (n : Int) - 2 ^ 32)
      (offset + 4)
  else .panicked

/-- `ScriptReader::read_qword`: 8-byte little-endian `u64`. -/
def read_qword (script : List Nat) (offset : Nat) : ReadResult Nat :=
  if offset + 8 ≤ script.length then .ok (leValue script offset 8) (offset + 8) else .panicked

/-- The `as u32` cast applied to an `i32` (bit-pattern preserving). -/
def i32ToU32 (v : Int) : Nat := (v % 2 ^ 32).toNat

/-- `ScriptReader::read_float`: `f32::from_bits(self.read_int(offset) as u32)`.
Only the raw 32-bit pattern is modelled; the claims never inspect the
floating-point value. -/
def read_float (script : List Nat) (offset : Nat) : ReadResult Nat :=
  match read_int script offset with
  | .ok v off => .ok (i32ToU32 v) off
  | .panicked => .panicked
  | .err e => .err e

/-- `ScriptReader::read_skip_count`: `self.read_int(offset) as CodeSkipSizeType`. -/
def read_skip_count (script : List Nat) (offset : Nat) : ReadResult Nat :=
  match read_int script offset with
  | .ok v off => .ok (i32ToU32 v) off
  | .panicked => .panicked
  | .err e => .err e

/-- `ScriptReader::read_name`: three `read_int`s (comparison index discarded),
name-table lookup with `UnknownName_{display_index}` fallback, then the
`_{number-1}` suffix when `number != 0`. -/
def read_name (script : List Nat) (names : List (Nat × String)) (offset : Nat) :
    ReadResult String :=
  match read_int script offset with
  | .panicked => .panicked
  | .err e => .err e
  | .ok _comparison off1 =>
    match read_int script off1 with
    | .panicked => .panicked
    | .err e => .err e
    | .ok di off2 =>
      match read_int script off2 with
      | .panicked => .panicked
      | .err e => .err e
      | .ok num off3 =>
        let display_index := i32ToU32 di
        let number := i32ToU32 num
        let base_name :=
          match lookupA names display_index with
          | some s => s
          | none => "UnknownName_" ++ toString display_index
        .ok (if number = 0 then base_name
             else base_name ++ "_" ++ toString (number - 1)) off3

/-- `EExprToken` from `opcodes.rs` (generated by the `define_opcodes!` macro):
one variant per documented opcode byte plus `Unknown(u8)`. -/
inductive EExprToken where
  | LocalVariable
  | InstanceVariable
  | DefaultVariable
  | Return
  | Jump
  | JumpIfNot
  | Assert
  | Nothing
  | NothingInt32
  | Let
  | BitFieldConst
  | ClassContext
  | MetaCast
  | LetBool
  | EndParmValue
  | EndFunctionParms
  | Self_
  | Skip
  | Context
  | ContextFailSilent
  | VirtualFunction
  | FinalFunction
  | IntConst
  | FloatConst
  | StringConst
  | ObjectConst
  | NameConst
  | RotationConst
  | VectorConst
  | ByteConst
  | IntZero
  | IntOne
  | True
  | False
  | TextConst
  | NoObject
  | TransformConst
  | IntConstByte
  | NoInterface
  | DynamicCast
  | StructConst
  | EndStructConst
  | SetArray
  | EndArray
  | PropertyConst
  | UnicodeStringConst
  | Int64Const
  | UInt64Const
  | PrimitiveCast
  | SetSet
  | EndSet
  | SetMap
  | EndMap
  | SetConst
  | EndSetConst
  | MapConst
  | EndMapConst
  | StructMemberContext
  | LetMulticastDelegate
  | LetDelegate
  | LocalVirtualFunction
  | LocalFinalFunction
  | LocalOutVariable
  | DeprecatedOp4A
  | InstanceDelegate
  | PushExecutionFlow
  | PopExecutionFlow
  | ComputedJump
  | PopExecutionFlowIfNot
  | Breakpoint
  | InterfaceContext
  | ObjToInterfaceCast
  | EndOfScript
  | CrossInterfaceCast
  | InterfaceToObjCast
  | WireTracepoint
  | SkipOffsetConst
  | AddMulticastDelegate
  | ClearMulticastDelegate
  | Tracepoint
  | LetObj
  | LetWeakObjPtr
  | BindDelegate
  | RemoveMulticastDelegate
  | CallMulticastDelegate
  | LetValueOnPersistentFrame
  | ArrayConst
  | EndArrayConst
  | SoftObjectConst
  | CallMath
  | SwitchValue
  | InstrumentationEvent
  | ArrayGetByRef
  | ClassSparseDataVariable
  | FieldPathConst
  | Unknown (value : Nat)

/-- `EExprToken::opcode_value`. -/
def EExprToken.opcode_value : EExprToken → Nat
  | .LocalVariable => 0x00
  | .InstanceVariable => 0x01
  | .DefaultVariable => 0x02
  | .Return => 0x04
  | .Jump => 0x06
  | .JumpIfNot => 0x07
  | .Assert => 0x09
  | .Nothing => 0x0B
  | .NothingInt32 => 0x0C
  | .Let => 0x0F
  | .BitFieldConst => 0x11
  | .ClassContext => 0x12
  | .MetaCast => 0x13
  | .LetBool => 0x14
  | .EndParmValue => 0x15
  | .EndFunctionParms => 0x16
  | .Self_ => 0x17
  | .Skip => 0x18
  | .Context => 0x19
  | .ContextFailSilent => 0x1A
  | .VirtualFunction => 0x1B
  | .FinalFunction => 0x1C
  | .IntConst => 0x1D
  | .FloatConst => 0x1E
  | .StringConst => 0x1F
  | .ObjectConst => 0x20
  | .NameConst => 0x21
  | .RotationConst => 0x22
  | .VectorConst => 0x23
  | .ByteConst => 0x24
  | .IntZero => 0x25
  | .IntOne => 0x26
  | .True => 0x27
  | .False => 0x28
  | .TextConst => 0x29
  | .NoObject => 0x2A
  | .TransformConst => 0x2B
  | .IntConstByte => 0x2C
  | .NoInterface => 0x2D
  | .DynamicCast => 0x2E
  | .StructConst => 0x2F
  | .EndStructConst => 0x30
  | .SetArray => 0x31
  | .EndArray => 0x32
  | .PropertyConst => 0x33
  | .UnicodeStringConst => 0x34
  | .Int64Const => 0x35
  | .UInt64Const => 0x36
  | .PrimitiveCast => 0x38
  | .SetSet => 0x39
  | .EndSet => 0x3A
  | .SetMap => 0x3B
  | .EndMap => 0x3C
  | .SetConst => 0x3D
  | .EndSetConst => 0x3E
  | .MapConst => 0x3F
  | .EndMapConst => 0x40
  | .StructMemberContext => 0x42
  | .LetMulticastDelegate => 0x43
  | .LetDelegate => 0x44
  | .LocalVirtualFunction => 0x45
  | .LocalFinalFunction => 0x46
  | .LocalOutVariable => 0x48
  | .DeprecatedOp4A => 0x4A
  | .InstanceDelegate => 0x4B
  | .PushExecutionFlow => 0x4C
  | .PopExecutionFlow => 0x4D
  | .ComputedJump => 0x4E
  | .PopExecutionFlowIfNot => 0x4F
  | .Breakpoint => 0x50
  | .InterfaceContext => 0x51
  | .ObjToInterfaceCast => 0x52
  | .EndOfScript => 0x53
  | .CrossInterfaceCast => 0x54
  | .InterfaceToObjCast => 0x55
  | .WireTracepoint => 0x5A
  | .SkipOffsetConst => 0x5B
  | .AddMulticastDelegate => 0x5C
  | .ClearMulticastDelegate => 0x5D
  | .Tracepoint => 0x5E
  | .LetObj => 0x5F
  | .LetWeakObjPtr => 0x60
  | .BindDelegate => 0x61
  | .RemoveMulticastDelegate => 0x62
  | .CallMulticastDelegate => 0x63
  | .LetValueOnPersistentFrame => 0x64
  | .ArrayConst => 0x65
  | .EndArrayConst => 0x66
  | .SoftObjectConst => 0x67
  | .CallMath => 0x68
  | .SwitchValue => 0x69
  | .InstrumentationEvent => 0x6A
  | .ArrayGetByRef => 0x6B
  | .ClassSparseDataVariable => 0x6C
  | .FieldPathConst => 0x6D
  | .Unknown value => value

/-- `impl From<u8> for EExprToken`. -/
def EExprToken.fromByte (value : Nat) : EExprToken :=
  if value = 0x00 then .LocalVariable
  else if value = 0x01 then .InstanceVariable
  else if value = 0x02 then .DefaultVariable
  else if value = 0x04 then .Return
  else if value = 0x06 then .Jump
  else if value = 0x07 then .JumpIfNot
  else if value = 0x09 then .Assert
  else if value = 0x0B then .Nothing
  else if value = 0x0C then .NothingInt32
  else if value = 0x0F then .Let
  else if value = 0x11 then .BitFieldConst
  else if value = 0x12 then .ClassContext
  else if value = 0x13 then .MetaCast
  else if value = 0x14 then .LetBool
  else if value = 0x15 then .EndParmValue
  else if value = 0x16 then .EndFunctionParms
  else if value = 0x17 then .Self_
  else if value = 0x18 then .Skip
  else if value = 0x19 then .Context
  else if value = 0x1A then .ContextFailSilent
  else if value = 0x1B then .VirtualFunction
  else if value = 0x1C then .FinalFunction
  else if value = 0x1D then .IntConst
  else if value = 0x1E then .FloatConst
  else if value = 0x1F then .StringConst
  else if value = 0x20 then .ObjectConst
  else if value = 0x21 then .NameConst
  else if value = 0x22 then .RotationConst
  else if value = 0x23 then .VectorConst
  else if value = 0x24 then .ByteConst
  else if value = 0x25 then .IntZero
  else if value = 0x26 then .IntOne
  else if value = 0x27 then .True
  else if value = 0x28 then .False
  else if value = 0x29 then .TextConst
  else if value = 0x2A then .NoObject
  else if value = 0x2B then .TransformConst
  else if value = 0x2C then .IntConstByte
  else if value = 0x2D then .NoInterface
  else if value = 0x2E then .DynamicCast
  else if value = 0x2F then .StructConst
  else if value = 0x30 then .EndStructConst
  else if value = 0x31 then .SetArray
  else if value = 0x32 then .EndArray
  else if value = 0x33 then .PropertyConst
  else if value = 0x34 then .UnicodeStringConst
  else if value = 0x35 then .Int64Const
  else if value = 0x36 then .UInt64Const
  else if value = 0x38 then .PrimitiveCast
  else if value = 0x39 then .SetSet
  else if value = 0x3A then .EndSet
  else if value = 0x3B then .SetMap
  else if value = 0x3C then .EndMap
  else if value = 0x3D then .SetConst
  else if value = 0x3E then .EndSetConst
  else if value = 0x3F then .MapConst
  else if value = 0x40 then .EndMapConst
  else if value = 0x42 then .StructMemberContext
  else if value = 0x43 then .LetMulticastDelegate
  else if value = 0x44 then .LetDelegate
  else if value = 0x45 then .LocalVirtualFunction
  else if value = 0x46 then .LocalFinalFunction
  else if value = 0x48 then .LocalOutVariable
  else if value = 0x4A then .DeprecatedOp4A
  else if value = 0x4B then .InstanceDelegate
  else if value = 0x4C then .PushExecutionFlow
  else if value = 0x4D then .PopExecutionFlow
  else if value = 0x4E then .ComputedJump
  else if value = 0x4F then .PopExecutionFlowIfNot
  else if value = 0x50 then .Breakpoint
  else if value = 0x51 then .InterfaceContext
  else if value = 0x52 then .ObjToInterfaceCast
  else if value = 0x53 then .EndOfScript
  else if value = 0x54 then .CrossInterfaceCast
  else if value = 0x55 then .InterfaceToObjCast
  else if value = 0x5A then .WireTracepoint
  else if value = 0x5B then .SkipOffsetConst
  else if value = 0x5C then .AddMulticastDelegate
  else if value = 0x5D then .ClearMulticastDelegate
  else if value = 0x5E then .Tracepoint
  else if value = 0x5F then .LetObj
  else if value = 0x60 then .LetWeakObjPtr
  else if value = 0x61 then .BindDelegate
  else if value = 0x62 then .RemoveMulticastDelegate
  else if value = 0x63 then .CallMulticastDelegate
  else if value = 0x64 then .LetValueOnPersistentFrame
  else if value = 0x65 then .ArrayConst
  else if value = 0x66 then .EndArrayConst
  else if value = 0x67 then .SoftObjectConst
  else if value = 0x68 then .CallMath
  else if value = 0x69 then .SwitchValue
  else if value = 0x6A then .InstrumentationEvent
  else if value = 0x6B then .ArrayGetByRef
  else if value = 0x6C then .ClassSparseDataVariable
  else if value = 0x6D then .FieldPathConst
  else .Unknown value

/-- `CppFormatter::try_format_as_operator` from `formatters/cpp.rs`: recognise
KismetMathLibrary calls and render them as C++ operators. -/
def try_format_as_operator (full_path : String) (params : List String) : Option String :=
  match params with
  | [operand] =>
    if full_path = "/Script/Engine.KismetMathLibrary:Not_PreBool" then some ("!" ++ operand)
    else if full_path = "/Script/Engine.KismetMathLibrary:NegateFloat" then some ("-" ++ operand)
    else if full_path = "/Script/Engine.KismetMathLibrary:NegateInt" then some ("-" ++ operand)
    else if full_path = "/Script/Engine.KismetMathLibrary:NegateInt64" then some ("-" ++ operand)
    else none
  | [left, right] =>
    if full_path = "/Script/Engine.KismetMathLibrary:BooleanAND" then
      some ("(" ++ left ++ " && " ++ right ++ ")")
    else if full_path = "/Script/Engine.KismetMathLibrary:BooleanOR" then
      some ("(" ++ left ++ " || " ++ right ++ ")")
    else if full_path = "/Script/Engine.KismetMathLibrary:BooleanXOR" then
      some ("(" ++ left ++ " ^ " ++ right ++ ")")
    else if full_path = "/Script/Engine.KismetMathLibrary:Add_IntInt" then
      some ("(" ++ left ++ " + " ++ right ++ ")")
    else if full_path = "/Script/Engine.KismetMathLibrary:Subtract_IntInt" then
      some ("(" ++ left ++ " - " ++ right ++ ")")
    else if full_path = "/Script/Engine.KismetMathLibrary:Multiply_IntInt" then
      some ("(" ++ left ++ " * " ++ right ++ ")")
    else if full_path = "/Script/Engine.KismetMathLibrary:Divide_IntInt" then
      some ("(" ++ left ++ " / " ++ right ++ ")")
    else if full_path = "/Script/Engine.KismetMathLibrary:Percent_IntInt" then
      some ("(" ++ left ++ " % " ++ right ++ ")")
    else if full_path = "/Script/Engine.KismetMathLibrary:Add_FloatFloat" then
      some ("(" ++ left ++ " + " ++ right ++ ")")
    else if full_path = "/Script/Engine.KismetMathLibrary:Subtract_FloatFloat" then
      some ("(" ++ left ++ " - " ++ right ++ ")")
    else if full_path = "/Script/Engine.KismetMathLibrary:Multiply_FloatFloat" then
      some ("(" ++ left ++ " * " ++ right ++ ")")
    else if full_path = "/Script/Engine.KismetMathLibrary:Divide_FloatFloat" then
      some ("(" ++ left ++ " / " ++ right ++ ")")
    else if full_path = "/Script/Engine.KismetMathLibrary:Add_DoubleDouble" then
      some ("(" ++ left ++ " + " ++ right ++ ")")
    else if full_path = "/Script/Engine.KismetMathLibrary:Subtract_DoubleDouble" then
      some ("(" ++ left ++ " - " ++ right ++ ")")
    else if full_path = "/Script/Engine.KismetMathLibrary:Multiply_DoubleDouble" then
      some ("(" ++ left ++ " * " ++ right ++ ")")
    else if full_path = "/Script/Engine.KismetMathLibrary:Divide_DoubleDouble" then
      some ("(" ++ left ++ " / " ++ right ++ ")")
    else if full_path = "/Script/Engine.KismetMathLibrary:EqualEqual_IntInt" then
      some ("(" ++ left ++ " == " ++ right ++ ")")
    else if full_path = "/Script/Engine.KismetMathLibrary:NotEqual_IntInt" then
      some ("(" ++ left ++ " != " ++ right ++ ")")
    else if full_path = "/Script/Engine.KismetMathLibrary:Greater_IntInt" then
      some ("(" ++ left ++ " > " ++ right ++ ")")
    else if full_path = "/Script/Engine.KismetMathLibrary:GreaterEqual_IntInt" then
      some ("(" ++ left ++ " >= " ++ right ++ ")")
    else if full_path = "/Script/Engine.KismetMathLibrary:Less_IntInt" then
      some ("(" ++ left ++ " < " ++ right ++ ")")
    else if full_path = "/Script/Engine.KismetMathLibrary:LessEqual_IntInt" then
      some ("(" ++ left ++ " <= " ++ right ++ ")")
    else if full_path = "/Script/Engine.KismetMathLibrary:EqualEqual_ByteByte" then
      some ("(" ++ left ++ " == " ++ right ++ ")")
    else if full_path = "/Script/Engine.KismetMathLibrary:NotEqual_ByteByte" then
      some ("(" ++ left ++ " != " ++ right ++ ")")
    else if full_path = "/Script/Engine.KismetMathLibrary:Greater_ByteByte" then
      some ("(" ++ left ++ " > " ++ right ++ ")")
    else if full_path = "/Script/Engine.KismetMathLibrary:GreaterEqual_ByteByte" then
      some ("(" ++ left ++ " >= " ++ right ++ ")")
    else if full_path = "/Script/Engine.KismetMathLibrary:Less_ByteByte" then
      some ("(" ++ left ++ " < " ++ right ++ ")")
    else if full_path = "/Script/Engine.KismetMathLibrary:LessEqual_ByteByte" then
      some ("(" ++ left ++ " <= " ++ right ++ ")")
    else if full_path = "/Script/Engine.KismetMathLibrary:EqualEqual_DoubleDouble" then
      some ("(" ++ left ++ " == " ++ right ++ ")")
    else if full_path = "/Script/Engine.KismetMathLibrary:NotEqual_DoubleDouble" then
      some ("(" ++ left ++ " != " ++ right ++ ")")
    else if full_path = "/Script/Engine.KismetMathLibrary:Greater_DoubleDouble" then
      some ("(" ++ left ++ " > " ++ right ++ ")")
    else if full_path = "/Script/Engine.KismetMathLibrary:GreaterEqual_DoubleDouble" then
      some ("(" ++ left ++ " >= " ++ right ++ ")")
    else if full_path = "/Script/Engine.KismetMathLibrary:Less_DoubleDouble" then
      some ("(" ++ left ++ " < " ++ right ++ ")")
    else if full_path = "/Script/Engine.KismetMathLibrary:LessEqual_DoubleDouble" then
      some ("(" ++ left ++ " <= " ++ right ++ ")")
    else none
  | _ => none

/-- Modelled from the spec: the metadata-document objects the `jmap` crate
(an external collaborator absent from the sources) supplies.  Only the field
the address index reads — `obj.get_object().address` — is modelled. -/
structure JmapObject where
  address : Nat
deriving DecidableEq

/-- Modelled from the spec: the metadata document, an object map keyed by
string path. -/
structure Jmap where
  objects : List (String × JmapObject)

/-- `AddressIndex` (`address_index.rs`), restricted to the object index; the
property index is not referenced by any verified claim. -/
structure AddressIndex where
  jmap : Jmap
  object_index : List (Nat × String)

/-- The object-indexing loop of `AddressIndex::new`. -/
def buildObjectIndex : List (String × JmapObject) → List (Nat × String) → List (Nat × String)
  | [], acc => acc
  | p :: t, acc => buildObjectIndex t (insertA acc p.2.address p.1)

/-- `AddressIndex::new`. -/
def AddressIndex.new (j : Jmap) : AddressIndex :=
  ⟨j, buildObjectIndex j.objects []⟩

/-- `ObjectInfo` returned by `resolve_object`. -/
structure ObjectInfo where
  path : String
  object : JmapObject
deriving DecidableEq

/-- `AddressIndex::resolve_object`.  The source `unwrap`s the document lookup
of the indexed path; that lookup cannot fail when the document's keys are
unique, and the impossible failure is modelled as `none`. -/
def AddressIndex.resolve_object (idx : AddressIndex) (address : Nat) : Option ObjectInfo :=
  (lookupA idx.object_index address).bind fun path =>
    (lookupA idx.jmap.objects path).map fun obj => ⟨path, obj⟩

/-- Modelled from the spec: `BasicBlock` from the absent `cfg.rs` module
(§3 data model), restricted to the fields the graph analyses read —
`id`, `successors`, `predecessors`.  Statements and terminators are never
inspected by the dominator, post-dominator or loop code. -/
structure BasicBlock where
  id : Nat
  successors : List Nat
  predecessors : List Nat
deriving DecidableEq, Inhabited

/-- Modelled from the spec: `ControlFlowGraph` from the absent `cfg.rs`
module — an ordered block list plus the entry block id.  The
`offset_to_block` map is not used by the analyses. -/
structure ControlFlowGraph where
  blocks : List BasicBlock
  entry_block : Nat
deriving DecidableEq, Inhabited

/-- Modelled from the spec: `ControlFlowGraph::get_block`, lookup of a block
by its id. -/
def ControlFlowGraph.get_block (cfg : ControlFlowGraph) (id : Nat) : Option BasicBlock :=
  cfg.blocks.find? (fun b => b.id == id)

/-- `DominatorTree` (`dominators.rs`): the immediate-dominator map and the
entry block.  The derived `children` map is order-nondeterministic (HashMap
iteration) and unused by the verified claims, so it is not modelled. -/
structure DominatorTree where
  idom : List (Nat × Nat)
  entry : Nat
deriving DecidableEq, Inhabited

/-- Stop condition of the `DominatorTree::dominates` walk: the loop breaks
when `idom == current` (the entry's self-idom). -/
def stopSelf : Nat → Nat → Bool := fun cur i => i == cur

/-- Stop condition of the `PostDominatorTree` chain walks: the loop breaks
when `ipdom == current || ipdom == virtual_exit`. -/
def stopExit (ve : Nat) : Nat → Nat → Bool := fun cur i => i == cur || i == ve

/-- The `while let Some(&idom) = self.idom.get(&current)` loop of
`DominatorTree::dominates`, returning whether `dominator` is found strictly
above `dominated` in the idom chain. -/
def domWalk (idom : List (Nat × Nat)) (dominator : Nat) : Nat → Nat → Bool
  | 0, _ => false
  | fuel + 1, cur =>
    match lookupA idom cur with
    | none => false
    | some i =>
      if i = cur then false
      else if i = dominator then true
      else domWalk idom dominator fuel i

/-- `DominatorTree::dominates`.  The canonical fuel `idom.length + 1` is
sufficient whenever the idom map admits a decreasing rank, which holds for
every converged dominator computation. -/
def DominatorTree.dominates (t : DominatorTree) (dominator dominated : Nat) : Bool :=
  dominator == dominated || domWalk t.idom dominator (t.idom.length + 1) dominated

/-- `PostDominatorTree` (`dominators.rs`): immediate post-dominator map,
virtual exit and real exit blocks.  The derived `children` map is
order-nondeterministic (HashMap iteration) and unused by the verified
claims, so it is not modelled. -/
structure PostDominatorTree where
  ipdom : List (Nat × Nat)
  virtual_exit : Nat
  exit_blocks : List Nat
deriving DecidableEq, Inhabited

/-- The chain walk of `PostDominatorTree::post_dominates` (and of phase two of
`immediate_common_post_dominator`): walk `cur`'s ipdom chain looking for
`target`, stopping at a self-loop or at the virtual exit. -/
def postDomWalk (ipdom : List (Nat × Nat)) (ve target : Nat) : Nat → Nat → Bool
  | 0, _ => false
  | fuel + 1, cur =>
    match lookupA ipdom cur with
    | none => false
    | some i =>
      if i = cur ∨ i = ve then false
      else if i = target then true
      else postDomWalk ipdom ve target fuel i

/-- `PostDominatorTree::post_dominates`. -/
def PostDominatorTree.post_dominates (t : PostDominatorTree) (postdom postdominated : Nat) :
    Bool :=
  postdom == postdominated ||
    postDomWalk t.ipdom t.virtual_exit postdom (t.ipdom.length + 1) postdominated

/-- `PostDominatorTree::strictly_post_dominates`. -/
def PostDominatorTree.strictly_post_dominates (t : PostDominatorTree)
    (postdom postdominated : Nat) : Bool :=
  !(postdom == postdominated) && t.post_dominates postdom postdominated

/-- Phase three of `immediate_common_post_dominator`: walk `cur`'s ipdom chain
and return the first node contained in the set `s` (the collected
post-dominators of the other block). -/
def chainFindIn (ipdom : List (Nat × Nat)) (ve : Nat) (s : List Nat) : Nat → Nat → Option Nat
  | 0, _ => none
  | fuel + 1, cur =>
    match lookupA ipdom cur with
    | none => none
    | some i =>
      if i = cur ∨ i = ve then none
      else if s.contains i then some i
      else chainFindIn ipdom ve s fuel i

/-- `PostDominatorTree::immediate_common_post_dominator`: collect `b1`'s
strict post-dominators, then the three phases of the source. -/
def PostDominatorTree.immediate_common_post_dominator (t : PostDominatorTree) (b1 b2 : Nat) :
    Option Nat :=
  if (chainWalk t.ipdom (stopExit t.virtual_exit) (t.ipdom.length + 1) b1).contains b2 then
    some b2
  else if postDomWalk t.ipdom t.virtual_exit b1 (t.ipdom.length + 1) b2 then some b1
  else chainFindIn t.ipdom t.virtual_exit
    (chainWalk t.ipdom (stopExit t.virtual_exit) (t.ipdom.length + 1) b1)
    (t.ipdom.length + 1) b2

/-- `BlockId(usize::MAX)`, the synthetic virtual exit id. -/
def usizeMAX : Nat := 2 ^ 64 - 1

/-- The recursive DFS of `DominatorTree::reverse_postorder` (forward edges).
State is `(visited, postorder)`.  The recursion depth is bounded by the number
of blocks plus one, so the fuel used by the callers is never exhausted;
fuel exhaustion leaves the state unchanged. -/
def dfsFwd (cfg : ControlFlowGraph) : Nat → Nat → List Nat × List Nat → List Nat × List Nat
  | 0, _, st => st
  | fuel + 1, b, st =>
    if st.1.contains b then st
    else
      let st1 : List Nat × List Nat := (b :: st.1, st.2)
      let st2 :=
        match cfg.get_block b with
        | some blk => blk.successors.foldl (fun s p => dfsFwd cfg fuel p s) st1
        | none => st1
      (st2.1, st2.2 ++ [b])

/-- `DominatorTree::reverse_postorder`. -/
def DominatorTree.reverse_postorder (cfg : ControlFlowGraph) (entry : Nat) : List Nat :=
  (dfsFwd cfg (cfg.blocks.length + 2) entry ([], [])).2.reverse

/-- The recursive DFS of `PostDominatorTree::reverse_postorder_from_exits`
(predecessor edges). -/
def dfsRev (cfg : ControlFlowGraph) : Nat → Nat → List Nat × List Nat → List Nat × List Nat
  | 0, _, st => st
  | fuel + 1, b, st =>
    if st.1.contains b then st
    else
      let st1 : List Nat × List Nat := (b :: st.1, st.2)
      let st2 :=
        match cfg.get_block b with
        | some blk => blk.predecessors.foldl (fun s p => dfsRev cfg fuel p s) st1
        | none => st1
      (st2.1, st2.2 ++ [b])

/-- `PostDominatorTree::reverse_postorder_from_exits`. -/
def reverse_postorder_from_exits (cfg : ControlFlowGraph) (exits : List Nat) : List Nat :=
  (exits.foldl (fun st e => dfsRev cfg (cfg.blocks.length + 2) e st) ([], [])).2.reverse

/-- Build the `rpo_index` map (block id to reverse-postorder position). -/
def buildRpoIndex (rpo : List Nat) : List (Nat × Nat) :=
  rpo.enum.map (fun p => (p.2, p.1))

/-- `DominatorTree::intersect`.  The Rust loop indexes `rpo_index[&b]` and
`idom[&b]` (panicking when absent, modelled as `none`) and spins forever when
two distinct cursors have equal ranks; fuel exhaustion is also modelled as
`none` (divergence). -/
def dIntersect (idom rpoIdx : List (Nat × Nat)) : Nat → Nat → Nat → Option Nat
  | 0, _, _ => none
  | fuel + 1, b1, b2 =>
    if b1 = b2 then some b1
    else
      match lookupA rpoIdx b1, lookupA rpoIdx b2 with
      | some r1, some r2 =>
        if r1 > r2 then
          match lookupA idom b1 with
          | some n => dIntersect idom rpoIdx fuel n b2
          | none => none
        else if r2 > r1 then
          match lookupA idom b2 with
          | some n => dIntersect idom rpoIdx fuel b1 n
          | none => none
        else dIntersect idom rpoIdx fuel b1 b2
      | _, _ => none

/-- One pass of the `while changed` body of `DominatorTree::compute`
over the reverse postorder minus the entry.  `none` models a Rust panic
(`get_block(..).unwrap()` on an id with no block, or a panicking intersect). -/
def dRound (cfg : ControlFlowGraph) (rpoIdx : List (Nat × Nat)) :
    List Nat → List (Nat × Nat) × Bool → Option (List (Nat × Nat) × Bool)
  | [], st => some st
  | b :: rest, (idom, changed) =>
    match cfg.get_block b with
    | none => none
    | some blk =>
      match blk.predecessors.find? (fun p => (lookupA idom p).isSome) with
      | none => dRound cfg rpoIdx rest (idom, changed)
      | some p0 =>
        match blk.predecessors.foldl
            (fun acc p =>
              match acc with
              | none => none
              | some cur =>
                if p ≠ cur ∧ (lookupA idom p).isSome then
                  dIntersect idom rpoIdx (2 * idom.length + 2) p cur
                else some cur)
            (some p0) with
        | none => none
        | some n =>
          if lookupA idom b = some n then dRound cfg rpoIdx rest (idom, changed)
          else dRound cfg rpoIdx rest (insertA idom b n, true)

/-- The `while changed` loop of `DominatorTree::compute`.  Fuel exhaustion
returns the current map (the Cooper–Harvey–Kennedy iteration converges within
the fuel used by `compute` on any input it terminates on). -/
def dLoop (cfg : ControlFlowGraph) (rpoIdx : List (Nat × Nat)) (rpo : List Nat) :
    Nat → List (Nat × Nat) → Option (List (Nat × Nat))
  | 0, idom => some idom
  | fuel + 1, idom =>
    match dRound cfg rpoIdx rpo (idom, false) with
    | none => none
    | some (idom2, changed) =>
      if changed then dLoop cfg rpoIdx rpo fuel idom2 else some idom2

/-- `DominatorTree::compute`.  `none` models a panic or divergence in the
fixpoint machinery; on every well-formed graph the Rust code returns. -/
def DominatorTree.compute (cfg : ControlFlowGraph) : Option DominatorTree :=
  if cfg.blocks.isEmpty then some ⟨[], 0⟩
  else
    let entry := cfg.entry_block
    let rpo := DominatorTree.reverse_postorder cfg entry
    let rpoIdx := buildRpoIndex rpo
    let idom0 := insertA [] entry entry
    match dLoop cfg rpoIdx (rpo.drop 1) ((cfg.blocks.length + 1) * (cfg.blocks.length + 1) + 1)
        idom0 with
    | none => none
    | some idom => some ⟨idom, entry⟩

/-- `PostDominatorTree::intersect`.  Unlike the dominator version it guards
its map lookups (`unwrap_or(usize::MAX)`, early return on a missing ipdom
entry); it still spins forever on distinct cursors of equal rank, modelled by
fuel exhaustion returning the first cursor (a value no verified statement
depends on). -/
def pdIntersect (ipdom rpoIdx : List (Nat × Nat)) : Nat → Nat → Nat → Nat
  | 0, b1, _ => b1
  | fuel + 1, b1, b2 =>
    if b1 = b2 then b1
    else
      let r1 := (lookupA rpoIdx b1).getD usizeMAX
      let r2 := (lookupA rpoIdx b2).getD usizeMAX
      if r1 > r2 then
        match lookupA ipdom b1 with
        | some n => pdIntersect ipdom rpoIdx fuel n b2
        | none => b2
      else if r2 > r1 then
        match lookupA ipdom b2 with
        | some n => pdIntersect ipdom rpoIdx fuel b1 n
        | none => b1
      else pdIntersect ipdom rpoIdx fuel b1 b2

/-- One pass of the `while changed` body of `PostDominatorTree::compute` over
the reverse postorder, skipping exit blocks.  `none` models the
`get_block(..).unwrap()` panic. -/
def pdRound (cfg : ControlFlowGraph) (exits : List Nat) (rpoIdx : List (Nat × Nat)) :
    List Nat → List (Nat × Nat) × Bool → Option (List (Nat × Nat) × Bool)
  | [], st => some st
  | b :: rest, (ipdom, changed) =>
    if exits.contains b then pdRound cfg exits rpoIdx rest (ipdom, changed)
    else
      match cfg.get_block b with
      | none => none
      | some blk =>
        match blk.successors.find? (fun s => (lookupA ipdom s).isSome) with
        | none => pdRound cfg exits rpoIdx rest (ipdom, changed)
        | some n0 =>
          let n := blk.successors.foldl
            (fun acc s =>
              if s ≠ acc ∧ (lookupA ipdom s).isSome then
                pdIntersect ipdom rpoIdx (2 * ipdom.length + 2) s acc
              else acc)
            n0
          if lookupA ipdom b = some n then pdRound cfg exits rpoIdx rest (ipdom, changed)
          else pdRound cfg exits rpoIdx rest (insertA ipdom b n, true)

/-- The `while changed` loop of `PostDominatorTree::compute`. -/
def pdLoop (cfg : ControlFlowGraph) (exits : List Nat) (rpoIdx : List (Nat × Nat))
    (rpo : List Nat) : Nat → List (Nat × Nat) → Option (List (Nat × Nat))
  | 0, ipdom => some ipdom
  | fuel + 1, ipdom =>
    match pdRound cfg exits rpoIdx rpo (ipdom, false) with
    | none => none
    | some (ipdom2, changed) =>
      if changed then pdLoop cfg exits rpoIdx rpo fuel ipdom2 else some ipdom2

/-- The exit-block identification of `PostDominatorTree::compute` (step 1):
blocks with no successors, or the last block in CFG order when none exist. -/
def pdExitBlocks (cfg : ControlFlowGraph) : List Nat :=
  let exits := (cfg.blocks.filter (fun b => b.successors.isEmpty)).map (fun b => b.id)
  if exits.isEmpty then
    match cfg.blocks.getLast? with
    | some lb => [lb.id]
    | none => []
  else exits

/-- `PostDominatorTree::compute`. -/
def PostDominatorTree.compute (cfg : ControlFlowGraph) : Option PostDominatorTree :=
  if cfg.blocks.isEmpty then some ⟨[], usizeMAX, []⟩
  else
    match pdLoop cfg (pdExitBlocks cfg)
        (buildRpoIndex (reverse_postorder_from_exits cfg (pdExitBlocks cfg)))
        (reverse_postorder_from_exits cfg (pdExitBlocks cfg))
        ((cfg.blocks.length + 1) * (cfg.blocks.length + 1) + 1)
        ((pdExitBlocks cfg).foldl (fun acc e => insertA acc e usizeMAX)
          (insertA [] usizeMAX usizeMAX)) with
    | none => none
    | some ipdom => some ⟨ipdom, usizeMAX, pdExitBlocks cfg⟩

/-- `Loop` (`loops.rs`).  Rust's `HashSet` fields (`blocks`, `exit_blocks`)
are modelled as duplicate-free lists used through membership and length. -/
structure Loop where
  header : Nat
  blocks : List Nat
  back_edges : List (Nat × Nat)
  exit_blocks : List Nat
  parent : Option Nat
  children : List Nat
deriving DecidableEq, Inhabited

/-- `Loop::new`. -/
def Loop.new (header : Nat) : Loop := ⟨header, [], [], [], none, []⟩

/-- `LoopInfo` (`loops.rs`). -/
structure LoopInfo where
  loops : List Loop
deriving DecidableEq, Inhabited

/-- `HashSet::insert`: add an element if it is not present. -/
def insertFresh (l : List Nat) (x : Nat) : List Nat := if x ∈ l then l else l ++ [x]

/-- `LoopInfo::find_back_edges`: every edge whose target dominates its
source, in block order. -/
def LoopInfo.find_back_edges (cfg : ControlFlowGraph) (dom_tree : DominatorTree) :
    List (Nat × Nat) :=
  cfg.blocks.foldl
    (fun acc blk =>
      acc ++ (blk.successors.filter (fun succ => dom_tree.dominates succ blk.id)).map
        (fun succ => (blk.id, succ)))
    []

/-- The worklist loop of `LoopInfo::find_natural_loop`: walk predecessor
edges backwards from the latch, never crossing the header, inserting each
newly seen block.  The fuel passed by the caller exceeds the total number of
possible insertions, so it is never exhausted. -/
def fnlLoop (cfg : ControlFlowGraph) (header : Nat) : Nat → List Nat → List Nat → List Nat
  | 0, _, loopBlocks => loopBlocks
  | _ + 1, [], loopBlocks => loopBlocks
  | fuel + 1, b :: ws, loopBlocks =>
    match cfg.get_block b with
    | none => fnlLoop cfg header fuel ws loopBlocks
    | some blk =>
      let st := blk.predecessors.foldl
        (fun (st : List Nat × List Nat) pred =>
          if pred ≠ header ∧ pred ∉ st.2 then (st.1 ++ [pred], st.2 ++ [pred]) else st)
        (ws, loopBlocks)
      fnlLoop cfg header fuel st.1 st.2

/-- Fuel bound for the natural-loop worklist: initial worklist plus one push
per possible fresh insertion. -/
def fnlFuel (cfg : ControlFlowGraph) : Nat :=
  cfg.blocks.foldl (fun a b => a + b.predecessors.length) 0 + cfg.blocks.length + 2

/-- `LoopInfo::find_natural_loop`. -/
def LoopInfo.find_natural_loop (cfg : ControlFlowGraph) (header latch : Nat) : List Nat :=
  fnlLoop cfg header (fnlFuel cfg) [latch] (insertFresh (insertFresh [] header) latch)

/-- `LoopInfo::find_exit_blocks`: loop blocks with at least one successor
outside the loop. -/
def LoopInfo.find_exit_blocks (cfg : ControlFlowGraph) (loop_blocks : List Nat) : List Nat :=
  loop_blocks.filter
    (fun b =>
      match cfg.get_block b with
      | some blk => blk.successors.any (fun succ => !(loop_blocks.contains succ))
      | none => false)

/-- One back edge of step 2 of `LoopInfo::analyze`: find or create the loop
for the header, record the back edge, and extend the loop's block set with
the natural loop of the edge. -/
def addBackEdge (cfg : ControlFlowGraph) (st : List Loop × List (Nat × Nat))
    (e : Nat × Nat) : List Loop × List (Nat × Nat) :=
  let loops := st.1
  let loop_map := st.2
  let latch := e.1
  let header := e.2
  match lookupA loop_map header with
  | some idx =>
    match loops[idx]? with
    | some L =>
      (loops.set idx
        { L with
          back_edges := L.back_edges ++ [(latch, header)],
          blocks := (LoopInfo.find_natural_loop cfg header latch).foldl insertFresh L.blocks },
        loop_map)
    | none => (loops, loop_map)
  | none =>
    let idx := loops.length
    let loops2 := loops ++ [Loop.new header]
    match loops2[idx]? with
    | some L =>
      (loops2.set idx
        { L with
          back_edges := L.back_edges ++ [(latch, header)],
          blocks := (LoopInfo.find_natural_loop cfg header latch).foldl insertFresh L.blocks },
        insertA loop_map header idx)
    | none => (loops2, insertA loop_map header idx)

/-- `HashSet::is_subset` on the list model. -/
def subsetB (a b : List Nat) : Bool := a.all (fun x => b.contains x)

/-- The nesting condition of `LoopInfo::build_loop_tree`: loop `j` can be a
parent of loop `i` when it is a different loop with a different header whose
block set contains loop `i`'s blocks. -/
def candB (loops : List Loop) (i : Nat) (Li : Loop) (j : Nat) : Bool :=
  !(j == i) &&
    match loops[j]? with
    | some Lj => !(Li.header == Lj.header) && subsetB Li.blocks Lj.blocks
    | none => false

/-- The `potential_parents` collection of `LoopInfo::build_loop_tree` for
loop `i`, in index order. -/
def potential_parents (loops : List Loop) (i : Nat) (Li : Loop) : List Nat :=
  (List.range loops.length).filter (candB loops i Li)

/-- Block count of loop `j` (`HashSet::len` on the duplicate-free model). -/
def sizeAt (loops : List Loop) (j : Nat) : Nat :=
  match loops[j]? with
  | some L => L.blocks.length
  | none => 0

/-- The innermost-parent selection of `LoopInfo::build_loop_tree`: start from
the first candidate and keep the first candidate of strictly smaller size. -/
def chooseParent (loops : List Loop) (cands : List Nat) : Option Nat :=
  match cands with
  | [] => none
  | c0 :: _ =>
    some (cands.foldl (fun best j => if sizeAt loops j < sizeAt loops best then j else best) c0)

/-- The children-recording step of `LoopInfo::build_loop_tree` for index `i`. -/
def childrenStep (ls : List Loop) (i : Nat) : List Loop :=
  match ls[i]? with
  | some L =>
    match L.parent with
    | some p =>
      match ls[p]? with
      | some Lp => ls.set p { Lp with children := Lp.children ++ [i] }
      | none => ls
    | none => ls
  | none => ls

/-- The children-recording phase of `LoopInfo::build_loop_tree`. -/
def childrenPhase : List Loop → List Nat → List Loop
  | ls, [] => ls
  | ls, i :: rest => childrenPhase (childrenStep ls i) rest

/-- The parent-assignment phase of `LoopInfo::build_loop_tree`: assign each
loop (listed in order, starting at index `n`) the innermost containing loop
chosen among its potential parents in `orig`. -/
def parentPhase (orig : List Loop) : List Loop → Nat → List Loop
  | [], _ => []
  | L :: rest, n =>
    { L with parent := chooseParent orig (potential_parents orig n L) } ::
      parentPhase orig rest (n + 1)

/-- `LoopInfo::build_loop_tree`. -/
def build_loop_tree (loops : List Loop) : List Loop :=
  childrenPhase (parentPhase loops loops 0) (List.range loops.length)

/-- `LoopInfo::analyze`. -/
def LoopInfo.analyze (cfg : ControlFlowGraph) (dom_tree : DominatorTree) : LoopInfo :=
  ⟨build_loop_tree
    (((LoopInfo.find_back_edges cfg dom_tree).foldl (addBackEdge cfg) ([], [])).1.map
      (fun L => { L with exit_blocks := LoopInfo.find_exit_blocks cfg L.blocks }))⟩

/-- Strict subset on the list-as-set model. -/
def strictSubsetB (a b : List Nat) : Bool := subsetB a b && !(subsetB b a)

/-- The control-flow graph of the C5 counterexample: two reachable loops
(1 ⇄ 2 and 3 ⇄ 4) sharing the unreachable self-looping block 5, which jumps
into both latches. -/
def cexCfg : ControlFlowGraph :=
  ⟨[⟨0, [1, 3], []⟩, ⟨1, [2], [0, 2]⟩, ⟨2, [1], [1, 5]⟩,
    ⟨3, [4], [0, 4]⟩, ⟨4, [3], [3, 5]⟩, ⟨5, [2, 4, 5], [5]⟩], 0⟩

/-- The dominator tree `DominatorTree::compute` produces for `cexCfg`. -/
def cexDom : DominatorTree := ⟨[(0, 0), (3, 0), (4, 3), (1, 0), (2, 1)], 0⟩

/-- The fields of a loop that the children-recording phase never touches. -/
def loopCore (L : Loop) : Nat × List Nat × Option Nat := (L.header, L.blocks, L.parent)

theorem lookupA_mem {κ α : Type} [DecidableEq κ] {l : List (κ × α)} {k : κ} {v : α}
    (h : lookupA l k = some v) : (k, v) ∈ l := by
  induction l with
  | nil => simp [lookupA] at h
  | cons p t ih =>
    obtain ⟨k', v'⟩ := p
    by_cases hk : k = k'
    · simp [lookupA, hk] at h
      simp [hk, h]
    · simp [lookupA, hk] at h
      exact List.mem_cons_of_mem _ (ih h)

theorem lookupA_insertA_self {κ α : Type} [DecidableEq κ] (l : List (κ × α)) (k : κ) (v : α) :
    lookupA (insertA l k v) k = some v := by
  induction l with
  | nil => simp [insertA, lookupA]
  | cons p t ih =>
    obtain ⟨k', v'⟩ := p
    by_cases hk : k = k' <;> simp [insertA, lookupA, hk, ih]

theorem lookupA_insertA_ne {κ α : Type} [DecidableEq κ] (l : List (κ × α)) {k k' : κ} (v : α)
    (h : k' ≠ k) : lookupA (insertA l k v) k' = lookupA l k' := by
  induction l with
  | nil => simp [insertA, lookupA, h]
  | cons p t ih =>
    obtain ⟨k0, v0⟩ := p
    by_cases hk : k = k0
    · subst hk
      simp [insertA, lookupA, h]
    · by_cases hk' : k' = k0 <;> simp [insertA, lookupA, hk, hk', ih]

theorem chainWalk_subset_values (m : List (Nat × Nat)) (stop : Nat → Nat → Bool) :
    ∀ f cur, ∀ y ∈ chainWalk m stop f cur, y ∈ m.map Prod.snd := by
  intro f
  induction f with
  | zero => intro cur y hy; simp [chainWalk] at hy
  | succ f ih =>
    intro cur y hy
    unfold chainWalk at hy
    cases hl : lookupA m cur with
    | none => rw [hl] at hy; simp at hy
    | some i =>
      rw [hl] at hy
      by_cases hs : stop cur i = true
      · simp [hs] at hy
      · simp [hs] at hy
        rcases hy with hy | hy
        · subst hy
          exact List.mem_map_of_mem Prod.snd (lookupA_mem hl)
        · exact ih i y hy

theorem chainWalk_rank_lt (m : List (Nat × Nat)) (stop : Nat → Nat → Bool) (rank : Nat → Nat)
    (hstop : ∀ c i, stop c i = false → i ≠ c)
    (hrank : ∀ p ∈ m, p.2 = p.1 ∨ rank p.2 < rank p.1) :
    ∀ f cur, ∀ y ∈ chainWalk m stop f cur, rank y < rank cur := by
  intro f
  induction f with
  | zero => intro cur y hy; simp [chainWalk] at hy
  | succ f ih =>
    intro cur y hy
    unfold chainWalk at hy
    cases hl : lookupA m cur with
    | none => rw [hl] at hy; simp at hy
    | some i =>
      rw [hl] at hy
      by_cases hs : stop cur i = true
      · simp [hs] at hy
      · simp [hs] at hy
        have hne : i ≠ cur := hstop cur i (by simpa using hs)
        have hlt : rank i < rank cur := by
          rcases hrank (cur, i) (lookupA_mem hl) with h | h
          · exact absurd h hne
          · exact h
        rcases hy with hy | hy
        · subst hy; exact hlt
        · exact lt_trans (ih i y hy) hlt

theorem chainWalk_nodup (m : List (Nat × Nat)) (stop : Nat → Nat → Bool) (rank : Nat → Nat)
    (hstop : ∀ c i, stop c i = false → i ≠ c)
    (hrank : ∀ p ∈ m, p.2 = p.1 ∨ rank p.2 < rank p.1) :
    ∀ f cur, (chainWalk m stop f cur).Nodup := by
  intro f
  induction f with
  | zero => intro cur; simp [chainWalk]
  | succ f ih =>
    intro cur
    unfold chainWalk
    cases hl : lookupA m cur with
    | none => simp
    | some i =>
      by_cases hs : stop cur i = true
      · simp [hs]
      · simp only [hs, Bool.false_eq_true, if_false, List.nodup_cons]
        refine ⟨fun hmem => ?_, ih i⟩
        exact absurd (chainWalk_rank_lt m stop rank hstop hrank f i i hmem) (lt_irrefl _)

theorem chainWalk_length_le (m : List (Nat × Nat)) (stop : Nat → Nat → Bool) (rank : Nat → Nat)
    (hstop : ∀ c i, stop c i = false → i ≠ c)
    (hrank : ∀ p ∈ m, p.2 = p.1 ∨ rank p.2 < rank p.1) :
    ∀ f cur, (chainWalk m stop f cur).length ≤ m.length := by
  intro f cur
  have hsub : chainWalk m stop f cur ⊆ m.map Prod.snd := fun y hy =>
    chainWalk_subset_values m stop f cur y hy
  have hnd := chainWalk_nodup m stop rank hstop hrank f cur
  have := (List.subperm_of_subset hnd hsub).length_le
  simpa using this

theorem chainWalk_stable (m : List (Nat × Nat)) (stop : Nat → Nat → Bool) :
    ∀ f cur, (chainWalk m stop f cur).length < f →
      ∀ g, f ≤ g → chainWalk m stop g cur = chainWalk m stop f cur := by
  intro f
  induction f with
  | zero => intro cur h; omega
  | succ f ih =>
    intro cur h g hg
    obtain ⟨g', rfl⟩ : ∃ g', g = g' + 1 := ⟨g - 1, by omega⟩
    unfold chainWalk at h ⊢
    cases hl : lookupA m cur with
    | none => rfl
    | some i =>
      rw [hl] at h
      by_cases hs : stop cur i = true
      · simp [hs]
      · simp only [hs, Bool.false_eq_true, if_false] at h ⊢
        simp only [List.length_cons] at h
        have hlen : (chainWalk m stop f i).length < f := by omega
        rw [ih i hlen g' (by omega)]

theorem chainWalk_succ (m : List (Nat × Nat)) (stop : Nat → Nat → Bool) (f cur : Nat) :
    chainWalk m stop (f + 1) cur =
      match lookupA m cur with
      | none => []
      | some i => if stop cur i then [] else i :: chainWalk m stop f i := rfl

theorem chainWalk_suffix (m : List (Nat × Nat)) (stop : Nat → Nat → Bool) :
    ∀ f cur b, b ∈ chainWalk m stop f cur →
      ∃ g, g < f ∧ (b :: chainWalk m stop g b) <:+ chainWalk m stop f cur ∧
        ((chainWalk m stop f cur).length < f → (chainWalk m stop g b).length < g) := by
  intro f
  induction f with
  | zero => intro cur b hb; simp [chainWalk] at hb
  | succ f ih =>
    intro cur b hb
    rw [chainWalk_succ] at hb
    cases hl : lookupA m cur with
    | none => rw [hl] at hb; simp at hb
    | some i =>
      rw [hl] at hb
      by_cases hs : stop cur i = true
      · simp [hs] at hb
      · simp only [hs, Bool.false_eq_true, if_false] at hb
        have hwalk : chainWalk m stop (f + 1) cur = i :: chainWalk m stop f i := by
          rw [chainWalk_succ, hl]
          simp [hs]
        rcases List.mem_cons.mp hb with hb | hb
        · subst hb
          refine ⟨f, by omega, ?_, ?_⟩
          · rw [hwalk]
          · rw [hwalk]
            simp only [List.length_cons]
            omega
        · obtain ⟨g, hgf, hsuf, hlen⟩ := ih i b hb
          refine ⟨g, by omega, ?_, fun hcur => ?_⟩
          · rw [hwalk]
            exact hsuf.trans (List.suffix_cons i _)
          · apply hlen
            rw [hwalk] at hcur
            simp only [List.length_cons] at hcur
            omega

theorem cchain_mem_suffix (m : List (Nat × Nat)) (stop : Nat → Nat → Bool) (rank : Nat → Nat)
    (hstop : ∀ c i, stop c i = false → i ≠ c)
    (hrank : ∀ p ∈ m, p.2 = p.1 ∨ rank p.2 < rank p.1)
    {cur b : Nat} (hb : b ∈ cchain m stop cur) :
    (b :: cchain m stop b) <:+ cchain m stop cur := by
  obtain ⟨g, hg, hsuf, hlen⟩ := chainWalk_suffix m stop (m.length + 1) cur b hb
  have hcomplete : (chainWalk m stop (m.length + 1) cur).length < m.length + 1 :=
    Nat.lt_succ_of_le (chainWalk_length_le m stop rank hstop hrank _ cur)
  have hstab := chainWalk_stable m stop g b (hlen hcomplete) (m.length + 1) (by omega)
  unfold cchain
  rw [hstab]
  exact hsuf

theorem cchain_antisym (m : List (Nat × Nat)) (stop : Nat → Nat → Bool) (rank : Nat → Nat)
    (hstop : ∀ c i, stop c i = false → i ≠ c)
    (hrank : ∀ p ∈ m, p.2 = p.1 ∨ rank p.2 < rank p.1)
    {a b : Nat} (hab : a ∈ cchain m stop b) (hba : b ∈ cchain m stop a) : False := by
  have h1 := (cchain_mem_suffix m stop rank hstop hrank hab).length_le
  have h2 := (cchain_mem_suffix m stop rank hstop hrank hba).length_le
  simp [List.length_cons] at h1 h2
  omega

theorem cchain_irrefl (m : List (Nat × Nat)) (stop : Nat → Nat → Bool) (rank : Nat → Nat)
    (hstop : ∀ c i, stop c i = false → i ≠ c)
    (hrank : ∀ p ∈ m, p.2 = p.1 ∨ rank p.2 < rank p.1)
    {a : Nat} (ha : a ∈ cchain m stop a) : False :=
  cchain_antisym m stop rank hstop hrank ha ha

theorem lookupA_eq_of_mem {κ α : Type} [DecidableEq κ] {l : List (κ × α)} {k : κ} {v : α}
    (hnd : (l.map Prod.fst).Nodup) (hm : (k, v) ∈ l) : lookupA l k = some v := by
  induction l with
  | nil => simp at hm
  | cons p t ih =>
    obtain ⟨k', v'⟩ := p
    simp only [List.map_cons, List.nodup_cons] at hnd
    by_cases hk : k = k'
    · subst hk
      rcases List.mem_cons.mp hm with hm | hm
      · have hv : v = v' := by injection hm
        simp [lookupA, hv]
      · exact absurd (List.mem_map_of_mem Prod.fst hm) hnd.1
    · rcases List.mem_cons.mp hm with hm | hm
      · exact absurd (congrArg Prod.fst hm) hk
      · simp [lookupA, hk, ih hnd.2 hm]

theorem byte_getD_lt (script : List Nat) (hb : ∀ b ∈ script, b < 256) (off : Nat) :
    script.getD off 0 < 256 := by
  by_cases h : off < script.length
  · rw [List.getD_eq_getElem script 0 h]
    exact hb _ (script.getElem_mem h)
  · rw [List.getD_eq_default script 0 (by omega)]
    omega

theorem leValue_lt (script : List Nat) (hb : ∀ b ∈ script, b < 256) :
    ∀ n off, leValue script off n < 256 ^ n := by
  intro n
  induction n with
  | zero => intro off; simp [leValue]
  | succ n ih =>
    intro off
    have h1 := byte_getD_lt script hb off
    have h2 := ih (off + 1)
    simp only [leValue]
    calc script.getD off 0 + 256 * leValue script (off + 1) n
        ≤ 255 + 256 * (256 ^ n - 1) := by
          have : leValue script (off + 1) n ≤ 256 ^ n - 1 := by omega
          omega
      _ < 256 ^ (n + 1) := by
          have : 256 ^ n ≥ 1 := Nat.one_le_pow n 256 (by omega)
          ring_nf
          omega

theorem i32_cast_roundtrip {n : Nat} (h : n < 2 ^ 32) :
    i32ToU32 (if n < 2 ^ 31 then (n : Int) else (n : Int) - 2 ^ 32) = n := by
  unfold i32ToU32
  by_cases h31 : n < 2 ^ 31 <;> simp only [h31, if_pos, if_neg, reduceIte] <;> omega

theorem read_int_spec (script : List Nat) (offset : Nat)
    (hb : ∀ b ∈ script, b < 256) (h4 : offset + 4 ≤ script.length) :
    ∃ v : Int, read_int script offset = .ok v (offset + 4) ∧
      i32ToU32 v = leValue script offset 4 := by
  refine ⟨if leValue script offset 4 < 2 ^ 31 then (leValue script offset 4 : Int)
          else (leValue script offset 4 : Int) - 2 ^ 32, ?_, ?_⟩
  · unfold read_int
    rw [if_pos h4]
  · exact i32_cast_roundtrip (leValue_lt script hb 4 offset)

/-- C1 counterexample: at the concrete out-of-range input (empty script,
offset 0) `read_byte` panics — the Rust code performs an out-of-bounds slice
index — rather than failing with `ErrorKind::Truncated` as the claim states;
no `ErrorKind` value is ever produced by the reader. -/
theorem C1_counterexample :
    read_byte [] 0 = ReadResult.panicked ∧
      (ReadResult.panicked : ReadResult Nat) ≠ ReadResult.err ErrorKind.Truncated := by
  exact ⟨rfl, by decide⟩

/-- C1 (amended): whenever a primitive read (`read_byte`, `read_word`,
`read_int`, `read_qword`, `read_float`, `read_skip_count`) would consume
bytes past the end of the script buffer, the read panics (Rust
index-out-of-bounds); it returns neither a value nor any `ErrorKind`. -/
theorem C1_out_of_range_reads_panic (script : List Nat) (offset : Nat) :
    (script.length ≤ offset → read_byte script offset = .panicked)
    ∧ (script.length < offset + 2 → read_word script offset = .panicked)
    ∧ (script.length < offset + 4 → read_int script offset = .panicked)
    ∧ (script.length < offset + 8 → read_qword script offset = .panicked)
    ∧ (script.length < offset + 4 → read_float script offset = .panicked)
    ∧ (script.length < offset + 4 → read_skip_count script offset = .panicked) := by
  refine ⟨fun h => ?_, fun h => ?_, fun h => ?_, fun h => ?_, fun h => ?_, fun h => ?_⟩
  · unfold read_byte; rw [if_neg (by omega)]
  · unfold read_word; rw [if_neg (by omega)]
  · unfold read_int; rw [if_neg (by omega)]
  · unfold read_qword; rw [if_neg (by omega)]
  · unfold read_float read_int; rw [if_neg (by omega)]
  · unfold read_skip_count read_int; rw [if_neg (by omega)]

/-- Witness for the amended C1 at a concrete input. -/
theorem C1_out_of_range_reads_panic_witness :
    read_byte [] 0 = ReadResult.panicked ∧ read_word [] 0 = ReadResult.panicked ∧
      read_int [] 0 = ReadResult.panicked ∧ read_qword [] 0 = ReadResult.panicked ∧
      read_float [] 0 = ReadResult.panicked ∧ read_skip_count [] 0 = ReadResult.panicked :=
  ⟨(C1_out_of_range_reads_panic [] 0).1 (by decide),
   (C1_out_of_range_reads_panic [] 0).2.1 (by decide),
   (C1_out_of_range_reads_panic [] 0).2.2.1 (by decide),
   (C1_out_of_range_reads_panic [] 0).2.2.2.1 (by decide),
   (C1_out_of_range_reads_panic [] 0).2.2.2.2.1 (by decide),
   (C1_out_of_range_reads_panic [] 0).2.2.2.2.2 (by decide)⟩

/-- C2: with at least 12 readable bytes, `read_name` reads three consecutive
little-endian u32s, discards the first, resolves the display index against the
name table with the `UnknownName_{display_index}` fallback, and appends
`_{number-1}` exactly when `number` is non-zero, advancing the cursor by 12. -/
theorem C2_read_name (script : List Nat) (names : List (Nat × String)) (offset : Nat)
    (hb : ∀ b ∈ script, b < 256) (hlen : offset + 12 ≤ script.length) :
    read_name script names offset =
      ReadResult.ok
        (let display_index := leValue script (offset + 4) 4
         let number := leValue script (offset + 8) 4
         let base :=
           match lookupA names display_index with
           | some s => s
           | none => "UnknownName_" ++ toString display_index
         if number = 0 then base else base ++ "_" ++ toString (number - 1))
        (offset + 12) := by
  obtain ⟨v1, hv1, _⟩ := read_int_spec script offset hb (by omega)
  obtain ⟨v2, hv2, hc2⟩ := read_int_spec script (offset + 4) hb (by omega)
  obtain ⟨v3, hv3, hc3⟩ := read_int_spec script (offset + 8) hb (by omega)
  have h8 : offset + 4 + 4 = offset + 8 := by omega
  have h12 : offset + 8 + 4 = offset + 12 := by omega
  unfold read_name
  simp only [hv1, h8, hv2, h12, hv3, hc2, hc3]

/-- Witness for C2: the three concrete scenarios from the claim, obtained by
applying `C2_read_name` at concrete inputs. -/
theorem C2_read_name_witness :
    read_name [7, 0, 0, 0, 42, 0, 0, 0, 3, 0, 0, 0] [(42, "Foo")] 0 =
        ReadResult.ok "Foo_2" 12 ∧
      read_name [7, 0, 0, 0, 42, 0, 0, 0, 0, 0, 0, 0] [(42, "Foo")] 0 =
        ReadResult.ok "Foo" 12 ∧
      read_name [7, 0, 0, 0, 99, 0, 0, 0, 0, 0, 0, 0] [(42, "Foo")] 0 =
        ReadResult.ok "UnknownName_99" 12 := by
  refine ⟨?_, ?_, ?_⟩
  · rw [C2_read_name _ _ _ (by decide) (by decide)]; decide
  · rw [C2_read_name _ _ _ (by decide) (by decide)]; decide
  · rw [C2_read_name _ _ _ (by decide) (by decide)]; decide

/-- C9: the C++ formatter renders a KismetMathLibrary `Add_IntInt` call with
formatted parameters `a`, `b` as `(a + b)` and a `Not_PreBool` call with
parameter `a` as `!a`. -/
theorem C9_operator_rendering (a b : String) :
    try_format_as_operator "/Script/Engine.KismetMathLibrary:Add_IntInt" [a, b] =
        some ("(" ++ a ++ " + " ++ b ++ ")")
    ∧ try_format_as_operator "/Script/Engine.KismetMathLibrary:Not_PreBool" [a] =
        some ("!" ++ a) := by
  constructor <;> rfl

theorem opcode_roundtrip_fin :
    ∀ b : Fin 256, EExprToken.opcode_value (EExprToken.fromByte b.val) = b.val := by decide

/-- C10: converting any byte to an opcode and back is the identity, both for
documented opcode values and for bytes that map to `Unknown`. -/
theorem C10_opcode_roundtrip (b : Nat) (hb : b < 256) :
    EExprToken.opcode_value (EExprToken.fromByte b) = b :=
  opcode_roundtrip_fin ⟨b, hb⟩

/-- Witness for C10 at concrete bytes: a documented opcode (0x68 `CallMath`)
and an undocumented one (0x37). -/
theorem C10_opcode_roundtrip_witness :
    EExprToken.opcode_value (EExprToken.fromByte 0x68) = 0x68 ∧
      EExprToken.opcode_value (EExprToken.fromByte 0x37) = 0x37 :=
  ⟨C10_opcode_roundtrip 0x68 (by decide), C10_opcode_roundtrip 0x37 (by decide)⟩

theorem stopSelf_ne {c i : Nat} (h : stopSelf c i = false) : i ≠ c := by
  simpa [stopSelf] using h

theorem stopExit_ne {ve c i : Nat} (h : stopExit ve c i = false) : i ≠ c := by
  simp [stopExit] at h
  exact h.1

theorem domWalk_succ (idom : List (Nat × Nat)) (dominator fuel cur : Nat) :
    domWalk idom dominator (fuel + 1) cur =
      match lookupA idom cur with
      | none => false
      | some i =>
        if i = cur then false
        else if i = dominator then true
        else domWalk idom dominator fuel i := rfl

theorem domWalk_iff_mem (idom : List (Nat × Nat)) (d : Nat) :
    ∀ f cur, domWalk idom d f cur = true ↔ d ∈ chainWalk idom stopSelf f cur := by
  intro f
  induction f with
  | zero => intro cur; simp [domWalk, chainWalk]
  | succ f ih =>
    intro cur
    rw [domWalk_succ, chainWalk_succ]
    cases hl : lookupA idom cur with
    | none => simp
    | some i =>
      by_cases hc : i = cur
      · simp [hc, stopSelf]
      · by_cases hd : i = d
        · simp [hc, hd, stopSelf]
        · have : stopSelf cur i = false := by simp [stopSelf, hc]
          simp only [this, Bool.false_eq_true, if_false, if_neg hc, if_neg hd, List.mem_cons]
          rw [ih i]
          constructor
          · exact fun h => Or.inr h
          · rintro (h | h)
            · exact absurd h.symm hd
            · exact h

/-- C7: dominance (as computed by `DominatorTree::dominates`) is transitive.
The hypothesis asks for a rank function that strictly decreases along the
idom map except at self-loops; the reverse-postorder index of a converged
dominator-tree computation is such a rank, so every dominator tree computed
from a control-flow graph satisfies it. -/
theorem C7_dominates_trans (t : DominatorTree) (rank : Nat → Nat)
    (hrank : ∀ p ∈ t.idom, p.2 = p.1 ∨ rank p.2 < rank p.1) (a b c : Nat)
    (hab : t.dominates a b = true) (hbc : t.dominates b c = true) :
    t.dominates a c = true := by
  have hstop : ∀ x i, stopSelf x i = false → i ≠ x := fun x i h => stopSelf_ne h
  unfold DominatorTree.dominates at hab hbc ⊢
  rcases Bool.or_eq_true _ _ |>.mp hab with h1 | h1
  · have : a = b := by simpa using h1
    subst this
    exact hbc
  · rcases Bool.or_eq_true _ _ |>.mp hbc with h2 | h2
    · have : b = c := by simpa using h2
      subst this
      simp [h1]
    · have hmem_ab : a ∈ cchain t.idom stopSelf b := (domWalk_iff_mem t.idom a _ b).mp h1
      have hmem_bc : b ∈ cchain t.idom stopSelf c := (domWalk_iff_mem t.idom b _ c).mp h2
      have hsuf := cchain_mem_suffix t.idom stopSelf rank hstop hrank hmem_bc
      have hmem_ac : a ∈ cchain t.idom stopSelf c :=
        hsuf.subset (List.mem_cons_of_mem b hmem_ab)
      have := (domWalk_iff_mem t.idom a (t.idom.length + 1) c).mpr hmem_ac
      simp [this]

/-- Witness for C7 on a concrete three-block chain. -/
theorem C7_dominates_trans_witness :
    DominatorTree.dominates ⟨[(0, 0), (1, 0), (2, 1)], 0⟩ 0 2 = true :=
  C7_dominates_trans ⟨[(0, 0), (1, 0), (2, 1)], 0⟩ (fun n => n) (by decide) 0 1 2
    (by decide) (by decide)

theorem postDomWalk_succ (ipdom : List (Nat × Nat)) (ve target fuel cur : Nat) :
    postDomWalk ipdom ve target (fuel + 1) cur =
      match lookupA ipdom cur with
      | none => false
      | some i =>
        if i = cur ∨ i = ve then false
        else if i = target then true
        else postDomWalk ipdom ve target fuel i := rfl

theorem chainFindIn_succ (ipdom : List (Nat × Nat)) (ve : Nat) (s : List Nat) (fuel cur : Nat) :
    chainFindIn ipdom ve s (fuel + 1) cur =
      match lookupA ipdom cur with
      | none => none
      | some i =>
        if i = cur ∨ i = ve then none
        else if s.contains i then some i
        else chainFindIn ipdom ve s fuel i := rfl

theorem stopExit_true_iff (ve cur i : Nat) :
    stopExit ve cur i = true ↔ (i = cur ∨ i = ve) := by
  simp [stopExit]

theorem postDomWalk_iff_mem (ipdom : List (Nat × Nat)) (ve d : Nat) :
    ∀ f cur, postDomWalk ipdom ve d f cur = true ↔
      d ∈ chainWalk ipdom (stopExit ve) f cur := by
  intro f
  induction f with
  | zero => intro cur; simp [postDomWalk, chainWalk]
  | succ f ih =>
    intro cur
    rw [postDomWalk_succ, chainWalk_succ]
    cases hl : lookupA ipdom cur with
    | none => simp
    | some i =>
      by_cases hc : i = cur ∨ i = ve
      · have : stopExit ve cur i = true := (stopExit_true_iff ve cur i).mpr hc
        simp [hc, this]
      · have hst : stopExit ve cur i = false := by
          cases hse : stopExit ve cur i
          · rfl
          · exact absurd ((stopExit_true_iff ve cur i).mp hse) hc
        by_cases hd : i = d
        · subst hd
          simp [hc, hst]
        · simp only [if_neg hc, if_neg hd, hst, Bool.false_eq_true, if_false, List.mem_cons]
          rw [ih i]
          constructor
          · exact fun h => Or.inr h
          · rintro (h | h)
            · exact absurd h.symm hd
            · exact h

theorem chainFindIn_eq_find? (ipdom : List (Nat × Nat)) (ve : Nat) (s : List Nat) :
    ∀ f cur, chainFindIn ipdom ve s f cur =
      (chainWalk ipdom (stopExit ve) f cur).find? (fun x => s.contains x) := by
  intro f
  induction f with
  | zero => intro cur; simp [chainFindIn, chainWalk]
  | succ f ih =>
    intro cur
    rw [chainFindIn_succ, chainWalk_succ]
    cases hl : lookupA ipdom cur with
    | none => simp
    | some i =>
      by_cases hc : i = cur ∨ i = ve
      · have : stopExit ve cur i = true := (stopExit_true_iff ve cur i).mpr hc
        simp [hc, this]
      · have hst : stopExit ve cur i = false := by
          cases hse : stopExit ve cur i
          · rfl
          · exact absurd ((stopExit_true_iff ve cur i).mp hse) hc
        simp only [if_neg hc, hst, Bool.false_eq_true, if_false, List.find?_cons]
        cases hsc : s.contains i
        · simpa [hsc] using ih i
        · simp [hsc]

theorem find?_split {α : Type} {p : α → Bool} :
    ∀ {l : List α} {a : α}, l.find? p = some a →
      ∃ s t, l = s ++ a :: t ∧ (∀ x ∈ s, p x = false) ∧ p a = true := by
  intro l
  induction l with
  | nil => intro a h; simp [List.find?] at h
  | cons x xs ih =>
    intro a h
    rw [List.find?_cons] at h
    cases hp : p x with
    | true =>
      rw [hp] at h
      injection h with h
      subst h
      exact ⟨[], xs, rfl, by simp, hp⟩
    | false =>
      rw [hp] at h
      obtain ⟨s, t, rfl, hs, ha⟩ := ih h
      exact ⟨x :: s, t, rfl, by
        intro y hy
        rcases List.mem_cons.mp hy with hy | hy
        · subst hy; exact hp
        · exact hs y hy, ha⟩

theorem nodup_append_cons_right_eq {x : Nat} :
    ∀ {p q s t : List Nat}, (p ++ x :: s).Nodup → p ++ x :: s = q ++ x :: t → s = t := by
  intro p
  induction p with
  | nil =>
    intro q s t hnd heq
    cases q with
    | nil => simpa using heq
    | cons a q' =>
      simp only [List.nil_append, List.cons_append, List.cons.injEq] at heq
      obtain ⟨hxa, hs⟩ := heq
      exfalso
      simp only [List.nil_append, List.nodup_cons] at hnd
      apply hnd.1
      rw [hs, hxa]
      exact List.mem_append_right _ (List.mem_cons_self _ _)
  | cons a p' ih =>
    intro q s t hnd heq
    cases q with
    | nil =>
      simp only [List.cons_append, List.nil_append, List.cons.injEq] at heq
      obtain ⟨hax, ht⟩ := heq
      exfalso
      simp only [List.cons_append, List.nodup_cons] at hnd
      apply hnd.1
      rw [hax]
      exact List.mem_append_right _ (List.mem_cons_self _ _)
    | cons b q' =>
      simp only [List.cons_append, List.cons.injEq] at heq
      obtain ⟨_, heq'⟩ := heq
      simp only [List.cons_append, List.nodup_cons] at hnd
      exact ih hnd.2 heq'

theorem contains_eq_false_of_not_mem {l : List Nat} {a : Nat} (h : a ∉ l) :
    l.contains a = false := by
  cases hc : l.contains a
  · rfl
  · exact absurd (List.elem_iff.mp hc) h

theorem icpd_one_side (t : PostDominatorTree) (b1 b2 : Nat)
    (h21 : b2 ∈ chainWalk t.ipdom (stopExit t.virtual_exit) (t.ipdom.length + 1) b1)
    (h12 : b1 ∉ chainWalk t.ipdom (stopExit t.virtual_exit) (t.ipdom.length + 1) b2) :
    t.immediate_common_post_dominator b1 b2 = some b2
    ∧ t.immediate_common_post_dominator b2 b1 = some b2 := by
  constructor
  · unfold PostDominatorTree.immediate_common_post_dominator
    rw [if_pos (List.elem_iff.mpr h21)]
  · unfold PostDominatorTree.immediate_common_post_dominator
    rw [if_neg (by simpa using h12), if_pos]
    exact (postDomWalk_iff_mem t.ipdom t.virtual_exit b2 (t.ipdom.length + 1) b1).mpr h21

theorem find?_common_symm (m : List (Nat × Nat)) (st : Nat → Nat → Bool) (rank : Nat → Nat)
    (hstop : ∀ c i, st c i = false → i ≠ c)
    (hrank : ∀ p ∈ m, p.2 = p.1 ∨ rank p.2 < rank p.1) (b1 b2 : Nat) :
    (cchain m st b2).find? (fun x => (cchain m st b1).contains x) =
      (cchain m st b1).find? (fun x => (cchain m st b2).contains x) := by
  cases hB : (cchain m st b2).find? (fun x => (cchain m st b1).contains x) with
  | none =>
    rw [List.find?_eq_none] at hB
    symm
    rw [List.find?_eq_none]
    intro y hyA hcont
    exact hB y (by simpa using hcont) (by simpa using hyA)
  | some m0 =>
    have hm0B : m0 ∈ cchain m st b2 := List.mem_of_find?_eq_some hB
    have hm0A : m0 ∈ cchain m st b1 := by simpa using List.find?_some hB
    cases hA : (cchain m st b1).find? (fun x => (cchain m st b2).contains x) with
    | none =>
      exfalso
      rw [List.find?_eq_none] at hA
      exact hA m0 hm0A (by simpa using hm0B)
    | some m1 =>
      have hm1A : m1 ∈ cchain m st b1 := List.mem_of_find?_eq_some hA
      have hm1B : m1 ∈ cchain m st b2 := by simpa using List.find?_some hA
      obtain ⟨p, s, hBdec, hpNone, _⟩ := find?_split hB
      obtain ⟨q, u, hAdec, hqNone, _⟩ := find?_split hA
      have hBnd : (p ++ m0 :: s).Nodup :=
        hBdec ▸ chainWalk_nodup m st rank hstop hrank (m.length + 1) b2
      have hAnd : (q ++ m1 :: u).Nodup :=
        hAdec ▸ chainWalk_nodup m st rank hstop hrank (m.length + 1) b1
      obtain ⟨r, hr⟩ := cchain_mem_suffix m st rank hstop hrank hm0B
      obtain ⟨w, hw⟩ := cchain_mem_suffix m st rank hstop hrank hm1A
      have hs : s = cchain m st m0 :=
        nodup_append_cons_right_eq hBnd (hBdec.symm.trans hr.symm)
      have hu : u = cchain m st m1 :=
        nodup_append_cons_right_eq hAnd (hAdec.symm.trans hw.symm)
      have hm1pos : m1 = m0 ∨ m1 ∈ cchain m st m0 := by
        rw [hBdec] at hm1B
        rcases List.mem_append.mp hm1B with h | h
        · exact absurd hm1A (by simpa using hpNone m1 h)
        · rcases List.mem_cons.mp h with h | h
          · exact Or.inl h
          · exact Or.inr (hs ▸ h)
      have hm0pos : m0 = m1 ∨ m0 ∈ cchain m st m1 := by
        rw [hAdec] at hm0A
        rcases List.mem_append.mp hm0A with h | h
        · exact absurd hm0B (by simpa using hqNone m0 h)
        · rcases List.mem_cons.mp h with h | h
          · exact Or.inl h
          · exact Or.inr (hu ▸ h)
      rcases hm1pos with h1 | h1
      · rw [h1]
      · rcases hm0pos with h0 | h0
        · rw [h0]
        · exact (cchain_antisym m st rank hstop hrank h1 h0).elim

/-- C3: `immediate_common_post_dominator` is symmetric in its two arguments,
and when one block strictly post-dominates the other (per the tree's
`post_dominates` with distinct blocks), that block is returned for both
argument orders.  The hypothesis asks for a rank function strictly
decreasing along the ipdom map except at self-loops; the reverse-postorder
index of a converged post-dominator computation is such a rank, so every
post-dominator tree computed from a control-flow graph satisfies it. -/
theorem C3_icpd_symm (t : PostDominatorTree) (rank : Nat → Nat)
    (hrank : ∀ p ∈ t.ipdom, p.2 = p.1 ∨ rank p.2 < rank p.1) (b1 b2 : Nat) :
    t.immediate_common_post_dominator b1 b2 = t.immediate_common_post_dominator b2 b1
    ∧ (b1 ≠ b2 → t.post_dominates b2 b1 = true →
        t.immediate_common_post_dominator b1 b2 = some b2
        ∧ t.immediate_common_post_dominator b2 b1 = some b2) := by
  have hstop : ∀ c i, stopExit t.virtual_exit c i = false → i ≠ c :=
    fun c i h => stopExit_ne h
  by_cases h21 : b2 ∈ chainWalk t.ipdom (stopExit t.virtual_exit) (t.ipdom.length + 1) b1
  · by_cases h12 : b1 ∈ chainWalk t.ipdom (stopExit t.virtual_exit) (t.ipdom.length + 1) b2
    · exact (cchain_antisym t.ipdom (stopExit t.virtual_exit) rank hstop hrank h12 h21).elim
    · obtain ⟨he1, he2⟩ := icpd_one_side t b1 b2 h21 h12
      exact ⟨he1.trans he2.symm, fun _ _ => ⟨he1, he2⟩⟩
  · by_cases h12 : b1 ∈ chainWalk t.ipdom (stopExit t.virtual_exit) (t.ipdom.length + 1) b2
    · obtain ⟨he1, he2⟩ := icpd_one_side t b2 b1 h12 h21
      refine ⟨he2.trans he1.symm, fun hne hpd => ?_⟩
      exfalso
      unfold PostDominatorTree.post_dominates at hpd
      rcases Bool.or_eq_true _ _ |>.mp hpd with h | h
      · have hb : b2 = b1 := by simpa using h
        exact hne hb.symm
      · exact h21 ((postDomWalk_iff_mem t.ipdom t.virtual_exit b2 (t.ipdom.length + 1) b1).mp h)
    · have hpw1 : ¬ (postDomWalk t.ipdom t.virtual_exit b1 (t.ipdom.length + 1) b2 = true) :=
        fun h => h12 ((postDomWalk_iff_mem t.ipdom t.virtual_exit b1 (t.ipdom.length + 1) b2).mp h)
      have hpw2 : ¬ (postDomWalk t.ipdom t.virtual_exit b2 (t.ipdom.length + 1) b1 = true) :=
        fun h => h21 ((postDomWalk_iff_mem t.ipdom t.virtual_exit b2 (t.ipdom.length + 1) b1).mp h)
      have hc21 : ¬ ((chainWalk t.ipdom (stopExit t.virtual_exit)
          (t.ipdom.length + 1) b1).contains b2 = true) := by simpa using h21
      have hc12 : ¬ ((chainWalk t.ipdom (stopExit t.virtual_exit)
          (t.ipdom.length + 1) b2).contains b1 = true) := by simpa using h12
      have hfind1 : t.immediate_common_post_dominator b1 b2 =
          (cchain t.ipdom (stopExit t.virtual_exit) b2).find?
            (fun x => (cchain t.ipdom (stopExit t.virtual_exit) b1).contains x) := by
        unfold PostDominatorTree.immediate_common_post_dominator
        rw [if_neg hc21, if_neg hpw1, chainFindIn_eq_find?]
        rfl
      have hfind2 : t.immediate_common_post_dominator b2 b1 =
          (cchain t.ipdom (stopExit t.virtual_exit) b1).find?
            (fun x => (cchain t.ipdom (stopExit t.virtual_exit) b2).contains x) := by
        unfold PostDominatorTree.immediate_common_post_dominator
        rw [if_neg hc12, if_neg hpw2, chainFindIn_eq_find?]
        rfl
      refine ⟨?_, fun hne hpd => ?_⟩
      · rw [hfind1, hfind2]
        exact find?_common_symm t.ipdom (stopExit t.virtual_exit) rank hstop hrank b1 b2
      · exfalso
        unfold PostDominatorTree.post_dominates at hpd
        rcases Bool.or_eq_true _ _ |>.mp hpd with h | h
        · have hb : b2 = b1 := by simpa using h
          exact hne hb.symm
        · exact h21 ((postDomWalk_iff_mem t.ipdom t.virtual_exit b2 (t.ipdom.length + 1) b1).mp h)

/-- Witness for C3 on a concrete diamond-shaped post-dominator tree
(branch 0, arms 1 and 2, merge 3, virtual exit 100). -/
theorem C3_icpd_symm_witness :
    (PostDominatorTree.immediate_common_post_dominator
        ⟨[(100, 100), (3, 100), (1, 3), (2, 3), (0, 3)], 100, [3]⟩ 1 2 =
      PostDominatorTree.immediate_common_post_dominator
        ⟨[(100, 100), (3, 100), (1, 3), (2, 3), (0, 3)], 100, [3]⟩ 2 1)
    ∧ ((1 : Nat) ≠ 2 →
        PostDominatorTree.post_dominates
          ⟨[(100, 100), (3, 100), (1, 3), (2, 3), (0, 3)], 100, [3]⟩ 2 1 = true →
        PostDominatorTree.immediate_common_post_dominator
          ⟨[(100, 100), (3, 100), (1, 3), (2, 3), (0, 3)], 100, [3]⟩ 1 2 = some 2
        ∧ PostDominatorTree.immediate_common_post_dominator
          ⟨[(100, 100), (3, 100), (1, 3), (2, 3), (0, 3)], 100, [3]⟩ 2 1 = some 2) :=
  C3_icpd_symm ⟨[(100, 100), (3, 100), (1, 3), (2, 3), (0, 3)], 100, [3]⟩
    (fun n => if n = 100 then 0 else if n = 3 then 1 else 2) (by decide) 1 2

theorem foldl_insert_const (v : Nat) :
    ∀ (l : List Nat) (acc : List (Nat × Nat)) (e : Nat),
      lookupA (l.foldl (fun a x => insertA a x v) acc) e =
        if e ∈ l then some v else lookupA acc e := by
  intro l
  induction l with
  | nil => intro acc e; simp
  | cons x t ih =>
    intro acc e
    rw [List.foldl_cons, ih]
    by_cases het : e ∈ t
    · simp [het]
    · by_cases hex : e = x
      · subst hex
        simp [het, lookupA_insertA_self]
      · simp [het, hex, lookupA_insertA_ne acc v hex]

theorem pdRound_preserve (cfg : ControlFlowGraph) (exits : List Nat)
    (rpoIdx : List (Nat × Nat)) (ve : Nat) :
    ∀ (rest : List Nat) (ipdom : List (Nat × Nat)) (changed : Bool)
      (out : List (Nat × Nat) × Bool),
      pdRound cfg exits rpoIdx rest (ipdom, changed) = some out →
      (∀ e ∈ exits, lookupA ipdom e = some ve) →
      ∀ e ∈ exits, lookupA out.1 e = some ve := by
  intro rest
  induction rest with
  | nil =>
    intro ipdom changed out h hinv
    simp only [pdRound, Option.some.injEq] at h
    rw [← h]
    exact hinv
  | cons b rest ih =>
    intro ipdom changed out h hinv
    unfold pdRound at h
    by_cases hc : exits.contains b = true
    · rw [if_pos hc] at h
      exact ih ipdom changed out h hinv
    · rw [if_neg hc] at h
      cases hg : cfg.get_block b with
      | none => rw [hg] at h; exact absurd h (by simp)
      | some blk =>
        simp only [hg] at h
        cases hf : blk.successors.find? (fun s => (lookupA ipdom s).isSome) with
        | none =>
          simp only [hf] at h
          exact ih ipdom changed out h hinv
        | some n0 =>
          simp only [hf] at h
          by_cases heq : lookupA ipdom b =
              some (blk.successors.foldl
                (fun acc s =>
                  if s ≠ acc ∧ (lookupA ipdom s).isSome then
                    pdIntersect ipdom rpoIdx (2 * ipdom.length + 2) s acc
                  else acc) n0)
          · rw [if_pos heq] at h
            exact ih ipdom changed out h hinv
          · rw [if_neg heq] at h
            refine ih _ _ _ h ?_
            intro e he
            have hbe : e ≠ b := by
              intro hh
              subst hh
              exact hc (List.elem_iff.mpr he)
            rw [lookupA_insertA_ne _ _ hbe]
            exact hinv e he

theorem pdLoop_preserve (cfg : ControlFlowGraph) (exits : List Nat)
    (rpoIdx : List (Nat × Nat)) (rpo : List Nat) (ve : Nat) :
    ∀ (fuel : Nat) (ipdom out : List (Nat × Nat)),
      pdLoop cfg exits rpoIdx rpo fuel ipdom = some out →
      (∀ e ∈ exits, lookupA ipdom e = some ve) →
      ∀ e ∈ exits, lookupA out e = some ve := by
  intro fuel
  induction fuel with
  | zero =>
    intro ipdom out h hinv
    simp only [pdLoop, Option.some.injEq] at h
    rw [← h]
    exact hinv
  | succ fuel ih =>
    intro ipdom out h hinv
    unfold pdLoop at h
    cases hr : pdRound cfg exits rpoIdx rpo (ipdom, false) with
    | none => rw [hr] at h; exact absurd h (by simp)
    | some st =>
      rw [hr] at h
      have hst := pdRound_preserve cfg exits rpoIdx ve rpo ipdom false st hr hinv
      obtain ⟨ipdom2, changed⟩ := st
      simp only at h hst
      cases changed with
      | true => exact ih ipdom2 out (by simpa using h) hst
      | false =>
        simp only [if_neg (by simp : ¬ (false = true)), Option.some.injEq] at h
        rw [← h]
        exact hst

/-- C6: for every CFG with at least one block on which
`PostDominatorTree::compute` returns, the recorded exit blocks are exactly the
blocks with no successors — or, when every block has a successor, exactly the
last block in CFG order — and every exit block's immediate post-dominator in
the ipdom map is the synthetic virtual exit. -/
theorem C6_postdom_exits (cfg : ControlFlowGraph) (hne : cfg.blocks ≠ [])
    (t : PostDominatorTree) (hc : PostDominatorTree.compute cfg = some t) :
    ((∃ b ∈ cfg.blocks, b.successors = []) →
        ∀ x, x ∈ t.exit_blocks ↔ ∃ b ∈ cfg.blocks, b.id = x ∧ b.successors = [])
    ∧ ((∀ b ∈ cfg.blocks, b.successors ≠ []) →
        ∀ lb, cfg.blocks.getLast? = some lb → t.exit_blocks = [lb.id])
    ∧ (∀ e ∈ t.exit_blocks, lookupA t.ipdom e = some t.virtual_exit) := by
  unfold PostDominatorTree.compute at hc
  rw [if_neg (by simpa using hne)] at hc
  cases hl : pdLoop cfg (pdExitBlocks cfg) (buildRpoIndex (reverse_postorder_from_exits cfg
      (pdExitBlocks cfg))) (reverse_postorder_from_exits cfg (pdExitBlocks cfg))
      ((cfg.blocks.length + 1) * (cfg.blocks.length + 1) + 1)
      ((pdExitBlocks cfg).foldl (fun acc e => insertA acc e usizeMAX)
        (insertA [] usizeMAX usizeMAX)) with
  | none =>
    rw [hl] at hc
    exact absurd hc (by simp)
  | some ipdom =>
    rw [hl] at hc
    simp only [Option.some.injEq] at hc
    subst hc
    refine ⟨?_, ?_, ?_⟩
    · intro hex x
      have hnotempty : ¬ ((cfg.blocks.filter (fun b => b.successors.isEmpty)).map
          (fun b => b.id)).isEmpty = true := by
        obtain ⟨b, hb, hbs⟩ := hex
        have : b ∈ cfg.blocks.filter (fun b => b.successors.isEmpty) :=
          List.mem_filter.mpr ⟨hb, by simp [hbs]⟩
        simp only [List.isEmpty_iff, List.map_eq_nil_iff, List.filter_eq_nil_iff]
        intro hall
        exact absurd (by simp [hbs]) (hall b hb)
      show x ∈ pdExitBlocks cfg ↔ _
      unfold pdExitBlocks
      rw [if_neg hnotempty]
      simp only [List.mem_map, List.mem_filter]
      constructor
      · rintro ⟨b, ⟨hb, hs⟩, rfl⟩
        exact ⟨b, hb, rfl, by simpa using hs⟩
      · rintro ⟨b, hb, rfl, hs⟩
        exact ⟨b, ⟨hb, by simp [hs]⟩, rfl⟩
    · intro hall lb hlb
      show pdExitBlocks cfg = [lb.id]
      unfold pdExitBlocks
      rw [if_pos, hlb]
      simp only [List.isEmpty_iff, List.map_eq_nil_iff, List.filter_eq_nil_iff]
      intro b hb
      simpa using hall b hb
    · intro e he
      refine pdLoop_preserve cfg (pdExitBlocks cfg) _ _ usizeMAX _ _ ipdom hl ?_ e he
      intro x hx
      rw [foldl_insert_const]
      simp [hx]

/-- Witness for C6 on a concrete two-block graph (0 → 1, block 1 has no
successors). -/
theorem C6_postdom_exits_witness :
    ((∃ b ∈ (⟨[⟨0, [1], []⟩, ⟨1, [], [0]⟩], 0⟩ : ControlFlowGraph).blocks,
          b.successors = []) →
        ∀ x, x ∈ (⟨[(usizeMAX, usizeMAX), (1, usizeMAX), (0, 1)], usizeMAX, [1]⟩ :
            PostDominatorTree).exit_blocks ↔
          ∃ b ∈ (⟨[⟨0, [1], []⟩, ⟨1, [], [0]⟩], 0⟩ : ControlFlowGraph).blocks,
            b.id = x ∧ b.successors = [])
    ∧ ((∀ b ∈ (⟨[⟨0, [1], []⟩, ⟨1, [], [0]⟩], 0⟩ : ControlFlowGraph).blocks,
          b.successors ≠ []) →
        ∀ lb, (⟨[⟨0, [1], []⟩, ⟨1, [], [0]⟩], 0⟩ : ControlFlowGraph).blocks.getLast? =
            some lb →
          (⟨[(usizeMAX, usizeMAX), (1, usizeMAX), (0, 1)], usizeMAX, [1]⟩ :
            PostDominatorTree).exit_blocks = [lb.id])
    ∧ (∀ e ∈ (⟨[(usizeMAX, usizeMAX), (1, usizeMAX), (0, 1)], usizeMAX, [1]⟩ :
          PostDominatorTree).exit_blocks,
        lookupA (⟨[(usizeMAX, usizeMAX), (1, usizeMAX), (0, 1)], usizeMAX, [1]⟩ :
            PostDominatorTree).ipdom e =
          some (⟨[(usizeMAX, usizeMAX), (1, usizeMAX), (0, 1)], usizeMAX, [1]⟩ :
            PostDominatorTree).virtual_exit) :=
  C6_postdom_exits ⟨[⟨0, [1], []⟩, ⟨1, [], [0]⟩], 0⟩ (by decide)
    ⟨[(usizeMAX, usizeMAX), (1, usizeMAX), (0, 1)], usizeMAX, [1]⟩ (by decide)

/-- C4 evidence (failing input): on the CFG 0 → 1 → 2 → 1 (back edge) with an
unreachable block 3 → 2, the natural loop of header 1 contains block 3, yet
`dominates(1, 3)` is false — the loop search follows predecessor edges into
dead code that the dominator analysis excluded, so the claimed invariant
fails on the code as written. -/
theorem C4_code_bug_failing_input :
    DominatorTree.compute ⟨[⟨0, [1], []⟩, ⟨1, [2], [0, 2]⟩, ⟨2, [1], [1, 3]⟩,
        ⟨3, [2], []⟩], 0⟩ = some ⟨[(0, 0), (1, 0), (2, 1)], 0⟩
    ∧ (LoopInfo.analyze ⟨[⟨0, [1], []⟩, ⟨1, [2], [0, 2]⟩, ⟨2, [1], [1, 3]⟩,
        ⟨3, [2], []⟩], 0⟩ ⟨[(0, 0), (1, 0), (2, 1)], 0⟩).loops =
      [⟨1, [1, 2, 3], [(2, 1)], [], none, []⟩]
    ∧ DominatorTree.dominates ⟨[(0, 0), (1, 0), (2, 1)], 0⟩ 1 3 = false := by
  refine ⟨by decide, by decide, by decide⟩

/-- C5 counterexample: on `cexCfg`, loop 2 (blocks {5}) has its blocks
strictly contained in loop 1 (blocks {3,4,5}) with no loop strictly between
them, yet loop 1 is not recorded as loop 2's parent (the code picks loop 0,
blocks {1,2,5}, the first loop of minimum size); the claimed
iff therefore fails with A = loop 1, B = loop 2. -/
theorem C5_counterexample :
    DominatorTree.compute cexCfg = some cexDom
    ∧ strictSubsetB ((LoopInfo.analyze cexCfg cexDom).loops.getD 2 default).blocks
        ((LoopInfo.analyze cexCfg cexDom).loops.getD 1 default).blocks = true
    ∧ (∀ k, k < (LoopInfo.analyze cexCfg cexDom).loops.length →
        strictSubsetB ((LoopInfo.analyze cexCfg cexDom).loops.getD 2 default).blocks
            ((LoopInfo.analyze cexCfg cexDom).loops.getD k default).blocks = true →
        strictSubsetB ((LoopInfo.analyze cexCfg cexDom).loops.getD k default).blocks
            ((LoopInfo.analyze cexCfg cexDom).loops.getD 1 default).blocks = false)
    ∧ ((LoopInfo.analyze cexCfg cexDom).loops.getD 2 default).parent ≠ some 1 := by
  refine ⟨by decide, by decide, by decide, by decide⟩

theorem parentPhase_get? (orig : List Loop) :
    ∀ (ls : List Loop) (n j : Nat),
      (parentPhase orig ls n)[j]? =
        ls[j]?.map
          (fun L => { L with parent := chooseParent orig (potential_parents orig (n + j) L) }) := by
  intro ls
  induction ls with
  | nil => intro n j; simp [parentPhase]
  | cons L rest ih =>
    intro n j
    cases j with
    | zero => simp [parentPhase]
    | succ j =>
      have harith : n + 1 + j = n + (j + 1) := by omega
      simp only [parentPhase, List.getElem?_cons_succ]
      rw [ih (n + 1) j, harith]

theorem parentPhase_length (orig : List Loop) :
    ∀ (ls : List Loop) (n : Nat), (parentPhase orig ls n).length = ls.length := by
  intro ls
  induction ls with
  | nil => intro n; simp [parentPhase]
  | cons L rest ih => intro n; simp [parentPhase, ih (n + 1)]

theorem childrenStep_core (ls : List Loop) (i k : Nat) :
    (childrenStep ls i)[k]?.map loopCore = ls[k]?.map loopCore := by
  cases hi : ls[i]? with
  | none => simp [childrenStep, hi]
  | some L =>
    cases hp : L.parent with
    | none => simp [childrenStep, hi, hp]
    | some p =>
      cases hlp : ls[p]? with
      | none => simp [childrenStep, hi, hp, hlp]
      | some Lp =>
        obtain ⟨hplen, -⟩ := List.getElem?_eq_some.mp hlp
        by_cases hk : p = k
        · subst hk
          simp [childrenStep, hi, hp, hlp, List.getElem?_set_self hplen, loopCore]
        · simp [childrenStep, hi, hp, hlp, List.getElem?_set_ne hk]

theorem childrenStep_length (ls : List Loop) (i : Nat) :
    (childrenStep ls i).length = ls.length := by
  cases hi : ls[i]? with
  | none => simp [childrenStep, hi]
  | some L =>
    cases hp : L.parent with
    | none => simp [childrenStep, hi, hp]
    | some p =>
      cases hlp : ls[p]? with
      | none => simp [childrenStep, hi, hp, hlp]
      | some Lp => simp [childrenStep, hi, hp, hlp]

theorem childrenPhase_core :
    ∀ (idxs : List Nat) (ls : List Loop) (k : Nat),
      (childrenPhase ls idxs)[k]?.map loopCore = ls[k]?.map loopCore := by
  intro idxs
  induction idxs with
  | nil => intro ls k; rfl
  | cons i rest ih =>
    intro ls k
    show (childrenPhase (childrenStep ls i) rest)[k]?.map loopCore = _
    rw [ih (childrenStep ls i) k, childrenStep_core]

theorem childrenPhase_length :
    ∀ (idxs : List Nat) (ls : List Loop), (childrenPhase ls idxs).length = ls.length := by
  intro idxs
  induction idxs with
  | nil => intro ls; rfl
  | cons i rest ih =>
    intro ls
    show (childrenPhase (childrenStep ls i) rest).length = _
    rw [ih (childrenStep ls i), childrenStep_length]

theorem foldMin_spec (sz : Nat → Nat) :
    ∀ (l : List Nat) (b0 : Nat),
      (sz (l.foldl (fun best j => if sz j < sz best then j else best) b0) ≤ sz b0
        ∧ ∀ x ∈ l, sz (l.foldl (fun best j => if sz j < sz best then j else best) b0) ≤ sz x)
      ∧ (l.foldl (fun best j => if sz j < sz best then j else best) b0 = b0
        ∨ ∃ p s, l = p ++ (l.foldl (fun best j => if sz j < sz best then j else best) b0) :: s
            ∧ sz (l.foldl (fun best j => if sz j < sz best then j else best) b0) < sz b0
            ∧ ∀ x ∈ p, sz (l.foldl (fun best j => if sz j < sz best then j else best) b0)
                < sz x) := by
  intro l
  induction l with
  | nil => intro b0; exact ⟨⟨le_refl _, by simp⟩, Or.inl rfl⟩
  | cons j t ih =>
    intro b0
    rw [List.foldl_cons]
    by_cases hj : sz j < sz b0
    · rw [if_pos hj]
      obtain ⟨⟨h1, h2⟩, h3⟩ := ih j
      refine ⟨⟨le_of_lt (lt_of_le_of_lt h1 hj), ?_⟩, ?_⟩
      · intro x hx
        rcases List.mem_cons.mp hx with hx | hx
        · subst hx; exact h1
        · exact h2 x hx
      · rcases h3 with h3 | ⟨p, s, hps, hlt, hp⟩
        · refine Or.inr ⟨[], t, ?_, ?_, by simp⟩
          · rw [h3]
            rfl
          · rw [h3]
            exact hj
        · refine Or.inr ⟨j :: p, s, ?_, lt_trans hlt hj, ?_⟩
          · rw [List.cons_append]
            exact congrArg (List.cons j) hps
          · intro x hx
            rcases List.mem_cons.mp hx with hx | hx
            · subst hx; exact hlt
            · exact hp x hx
    · rw [if_neg hj]
      obtain ⟨⟨h1, h2⟩, h3⟩ := ih b0
      refine ⟨⟨h1, ?_⟩, ?_⟩
      · intro x hx
        rcases List.mem_cons.mp hx with hx | hx
        · subst hx; exact le_trans h1 (by omega)
        · exact h2 x hx
      · rcases h3 with h3 | ⟨p, s, hps, hlt, hp⟩
        · exact Or.inl h3
        · refine Or.inr ⟨j :: p, s, ?_, hlt, ?_⟩
          · rw [List.cons_append]
            exact congrArg (List.cons j) hps
          · intro x hx
            rcases List.mem_cons.mp hx with hx | hx
            · subst hx; exact lt_of_lt_of_le hlt (by omega)
            · exact hp x hx

theorem loopCore_inj {A B : Loop} (h : loopCore A = loopCore B) :
    A.header = B.header ∧ A.blocks = B.blocks ∧ A.parent = B.parent := by
  unfold loopCore at h
  exact ⟨congrArg (fun p => p.1) h, congrArg (fun p => p.2.1) h, congrArg (fun p => p.2.2) h⟩

theorem candB_iff (loops : List Loop) (i : Nat) (Li : Loop) (j : Nat) :
    candB loops i Li j = true ↔
      (j ≠ i ∧ ∃ Lj, loops[j]? = some Lj ∧ Li.header ≠ Lj.header
        ∧ ∀ x ∈ Li.blocks, x ∈ Lj.blocks) := by
  unfold candB
  cases hj : loops[j]? with
  | none => simp
  | some Lj => simp [subsetB, List.all_eq_true, List.elem_iff]

theorem mem_potential_parents (loops : List Loop) (i : Nat) (Li : Loop) (j : Nat) :
    j ∈ potential_parents loops i Li ↔ (j < loops.length ∧ candB loops i Li j = true) := by
  simp [potential_parents, List.mem_filter, List.mem_range]

theorem potential_parents_sorted (loops : List Loop) (i : Nat) (Li : Loop) :
    (potential_parents loops i Li).Pairwise (· < ·) :=
  List.Pairwise.filter _ (List.pairwise_lt_range _)

theorem chooseParent_spec (loops : List Loop) (cands : List Nat)
    (hsort : cands.Pairwise (· < ·)) {r : Nat} (h : chooseParent loops cands = some r) :
    r ∈ cands ∧ (∀ k ∈ cands, sizeAt loops r ≤ sizeAt loops k)
      ∧ (∀ k ∈ cands, k < r → sizeAt loops r < sizeAt loops k) := by
  cases cands with
  | nil => simp [chooseParent] at h
  | cons c0 rest =>
    unfold chooseParent at h
    simp only [Option.some.injEq] at h
    obtain ⟨⟨hm0, hmin⟩, hpos⟩ := foldMin_spec (sizeAt loops) (c0 :: rest) c0
    rw [h] at hm0 hmin hpos
    refine ⟨?_, fun k hk => hmin k hk, ?_⟩
    · rcases hpos with he | ⟨p, s, hl, _, _⟩
      · rw [← he]
        exact List.mem_cons_self _ _
      · rw [hl]
        exact List.mem_append_right _ (List.mem_cons_self _ _)
    · intro k hk hkr
      rcases hpos with he | ⟨p, s, hl, hlt, hp⟩
      · exfalso
        rcases List.mem_cons.mp hk with hk | hk
        · subst hk
          omega
        · have := (List.pairwise_cons.mp hsort).1 k hk
          omega
      · rw [hl] at hk hsort
        rcases List.mem_append.mp hk with hk | hk
        · exact hp k hk
        · exfalso
          rcases List.mem_cons.mp hk with hk | hk
          · omega
          · have h2 := (List.pairwise_append.mp hsort).2.1
            have := (List.pairwise_cons.mp h2).1 k hk
            omega

theorem chooseParent_eq_some_iff (loops : List Loop) (cands : List Nat)
    (hsort : cands.Pairwise (· < ·)) (r : Nat) :
    chooseParent loops cands = some r ↔
      (r ∈ cands ∧ (∀ k ∈ cands, sizeAt loops r ≤ sizeAt loops k)
        ∧ (∀ k ∈ cands, k < r → sizeAt loops r < sizeAt loops k)) := by
  constructor
  · exact chooseParent_spec loops cands hsort
  · rintro ⟨hmem, hmin, hearly⟩
    cases hc : chooseParent loops cands with
    | none =>
      cases cands with
      | nil => simp at hmem
      | cons c0 rest => simp [chooseParent] at hc
    | some r0 =>
      obtain ⟨hmem0, hmin0, hearly0⟩ := chooseParent_spec loops cands hsort hc
      rcases Nat.lt_trichotomy r r0 with hlt | heq | hgt
      · have h1 := hearly0 r hmem hlt
        have h2 := hmin r0 hmem0
        omega
      · rw [heq]
      · have h1 := hearly r0 hmem0 hgt
        have h2 := hmin0 r hmem
        omega

theorem build_core (base : List Loop) (k : Nat) :
    (build_loop_tree base)[k]?.map loopCore =
      (base[k]?.map (fun L =>
        { L with parent := chooseParent base (potential_parents base k L) })).map loopCore := by
  show ((childrenPhase (parentPhase base base 0) (List.range base.length))[k]?.map loopCore) = _
  rw [childrenPhase_core, parentPhase_get? base base 0 k]
  simp

theorem build_get_some (base : List Loop) (k : Nat) (Lk : Loop)
    (h : (build_loop_tree base)[k]? = some Lk) :
    ∃ L0, base[k]? = some L0 ∧ Lk.header = L0.header ∧ Lk.blocks = L0.blocks
      ∧ Lk.parent = chooseParent base (potential_parents base k L0) := by
  have hc := build_core base k
  rw [h] at hc
  cases hb : base[k]? with
  | none => rw [hb] at hc; simp at hc
  | some L0 =>
    rw [hb] at hc
    have hcc : loopCore Lk = loopCore
        { L0 with parent := chooseParent base (potential_parents base k L0) } := by
      simpa using hc
    obtain ⟨h1, h2, h3⟩ := loopCore_inj hcc
    exact ⟨L0, rfl, h1, h2, h3⟩

theorem build_get_exists (base : List Loop) (k : Nat) (L0 : Loop)
    (h : base[k]? = some L0) :
    ∃ Lk, (build_loop_tree base)[k]? = some Lk ∧ Lk.header = L0.header
      ∧ Lk.blocks = L0.blocks := by
  have hc := build_core base k
  rw [h] at hc
  cases hb : (build_loop_tree base)[k]? with
  | none => rw [hb] at hc; simp at hc
  | some Lk =>
    rw [hb] at hc
    have hcc : loopCore Lk = loopCore
        { L0 with parent := chooseParent base (potential_parents base k L0) } := by
      simpa using hc
    obtain ⟨h1, h2, -⟩ := loopCore_inj hcc
    exact ⟨Lk, rfl, h1, h2⟩

theorem sizeAt_eq (base : List Loop) (k : Nat) (L : Loop) (h : base[k]? = some L) :
    sizeAt base k = L.blocks.length := by
  simp [sizeAt, h]

theorem build_loop_tree_parent_iff (base : List Loop) (i j : Nat) (Lj : Loop)
    (hj : (build_loop_tree base)[j]? = some Lj) :
    Lj.parent = some i ↔
      (∃ Li, (build_loop_tree base)[i]? = some Li ∧ i ≠ j
        ∧ Li.header ≠ Lj.header ∧ (∀ x ∈ Lj.blocks, x ∈ Li.blocks)
        ∧ (∀ k Lk, (build_loop_tree base)[k]? = some Lk → k ≠ j →
            Lk.header ≠ Lj.header → (∀ x ∈ Lj.blocks, x ∈ Lk.blocks) →
            Li.blocks.length ≤ Lk.blocks.length)
        ∧ (∀ k Lk, (build_loop_tree base)[k]? = some Lk → k ≠ j →
            Lk.header ≠ Lj.header → (∀ x ∈ Lj.blocks, x ∈ Lk.blocks) → k < i →
            Li.blocks.length < Lk.blocks.length)) := by
  obtain ⟨L0, hB0, hhdr, hblk, hpar⟩ := build_get_some base j Lj hj
  rw [hpar, chooseParent_eq_some_iff base _ (potential_parents_sorted base j L0) i]
  constructor
  · rintro ⟨hmem, hmin, hearly⟩
    rw [mem_potential_parents] at hmem
    obtain ⟨hilen, hcand⟩ := hmem
    rw [candB_iff] at hcand
    obtain ⟨hij, L0i, hBi, hhd, hsub⟩ := hcand
    obtain ⟨Li, hFi, hih, hib⟩ := build_get_exists base i L0i hBi
    have hszi : sizeAt base i = Li.blocks.length := by
      rw [sizeAt_eq base i L0i hBi, hib]
    refine ⟨Li, hFi, hij, ?_, ?_, ?_, ?_⟩
    · intro he
      omega
    · intro x hx
      rw [hib]
      exact hsub x (hblk ▸ hx)
    · intro k Lk hFk hkj hkh hkb
      obtain ⟨L0k, hBk, hkh2, hkb2, -⟩ := build_get_some base k Lk hFk
      have hkcand : k ∈ potential_parents base j L0 := by
        rw [mem_potential_parents]
        refine ⟨(List.getElem?_eq_some.mp hBk).1, ?_⟩
        rw [candB_iff]
        refine ⟨hkj, L0k, hBk, ?_, ?_⟩
        · intro he
          omega
        · intro x hx
          rw [← hkb2]
          exact hkb x (hblk ▸ hx)
      have hle := hmin k hkcand
      rw [hszi, sizeAt_eq base k L0k hBk, ← hkb2] at hle
      exact hle
    · intro k Lk hFk hkj hkh hkb hki
      obtain ⟨L0k, hBk, hkh2, hkb2, -⟩ := build_get_some base k Lk hFk
      have hkcand : k ∈ potential_parents base j L0 := by
        rw [mem_potential_parents]
        refine ⟨(List.getElem?_eq_some.mp hBk).1, ?_⟩
        rw [candB_iff]
        refine ⟨hkj, L0k, hBk, ?_, ?_⟩
        · intro he
          omega
        · intro x hx
          rw [← hkb2]
          exact hkb x (hblk ▸ hx)
      have hlt := hearly k hkcand hki
      rw [hszi, sizeAt_eq base k L0k hBk, ← hkb2] at hlt
      exact hlt
  · rintro ⟨Li, hFi, hij, hh, hsub, hminF, hearlyF⟩
    obtain ⟨L0i, hBi, hih, hib, -⟩ := build_get_some base i Li hFi
    have hszi : sizeAt base i = Li.blocks.length := by
      rw [sizeAt_eq base i L0i hBi, hib]
    refine ⟨?_, ?_, ?_⟩
    · rw [mem_potential_parents]
      refine ⟨(List.getElem?_eq_some.mp hBi).1, ?_⟩
      rw [candB_iff]
      refine ⟨hij, L0i, hBi, ?_, ?_⟩
      · intro he
        omega
      · intro x hx
        rw [← hib]
        exact hsub x (hblk ▸ hx)
    · intro k hk
      rw [mem_potential_parents] at hk
      obtain ⟨hklen, hkcand⟩ := hk
      rw [candB_iff] at hkcand
      obtain ⟨hkj, L0k, hBk, hkh, hksub⟩ := hkcand
      obtain ⟨Lk, hFk, hkih, hkib⟩ := build_get_exists base k L0k hBk
      have hle := hminF k Lk hFk hkj ?_ ?_
      · rw [hszi, sizeAt_eq base k L0k hBk, ← hkib]
        exact hle
      · intro he
        omega
      · intro x hx
        rw [hkib]
        exact hksub x (hblk ▸ hx)
    · intro k hk hki
      rw [mem_potential_parents] at hk
      obtain ⟨hklen, hkcand⟩ := hk
      rw [candB_iff] at hkcand
      obtain ⟨hkj, L0k, hBk, hkh, hksub⟩ := hkcand
      obtain ⟨Lk, hFk, hkih, hkib⟩ := build_get_exists base k L0k hBk
      have hlt := hearlyF k Lk hFk hkj ?_ ?_ hki
      · rw [hszi, sizeAt_eq base k L0k hBk, ← hkib]
        exact hlt
      · intro he
        omega
      · intro x hx
        rw [hkib]
        exact hksub x (hblk ▸ hx)

/-- C5 (amended): loop `i` is recorded as the parent of loop `j` iff loop `i`
is a different loop with a different header whose block set contains all of
loop `j`'s blocks, has minimum block count among all such loops, and is the
earliest (smallest index) among those achieving the minimum.  In particular
two loops with equal headers are never nested.  (The claim's original
strict-subset / no-intermediate-loop characterisation fails when a loop has
two incomparable minimal containing loops — see the counterexample.) -/
theorem C5_parent_selection (cfg : ControlFlowGraph) (dom_tree : DominatorTree)
    (i j : Nat) (Lj : Loop)
    (hj : (LoopInfo.analyze cfg dom_tree).loops[j]? = some Lj) :
    Lj.parent = some i ↔
      (∃ Li, (LoopInfo.analyze cfg dom_tree).loops[i]? = some Li ∧ i ≠ j
        ∧ Li.header ≠ Lj.header ∧ (∀ x ∈ Lj.blocks, x ∈ Li.blocks)
        ∧ (∀ k Lk, (LoopInfo.analyze cfg dom_tree).loops[k]? = some Lk → k ≠ j →
            Lk.header ≠ Lj.header → (∀ x ∈ Lj.blocks, x ∈ Lk.blocks) →
            Li.blocks.length ≤ Lk.blocks.length)
        ∧ (∀ k Lk, (LoopInfo.analyze cfg dom_tree).loops[k]? = some Lk → k ≠ j →
            Lk.header ≠ Lj.header → (∀ x ∈ Lj.blocks, x ∈ Lk.blocks) → k < i →
            Li.blocks.length < Lk.blocks.length)) :=
  build_loop_tree_parent_iff _ i j Lj hj

/-- Witness for the amended C5: the characterisation instantiated on the
counterexample graph at child loop 2 and recorded parent loop 0. -/
theorem C5_parent_selection_witness :
    (⟨5, [5], [(5, 5)], [5], some 0, []⟩ : Loop).parent = some 0 ↔
      (∃ Li, (LoopInfo.analyze cexCfg cexDom).loops[0]? = some Li ∧ 0 ≠ 2
        ∧ Li.header ≠ (⟨5, [5], [(5, 5)], [5], some 0, []⟩ : Loop).header
        ∧ (∀ x ∈ (⟨5, [5], [(5, 5)], [5], some 0, []⟩ : Loop).blocks, x ∈ Li.blocks)
        ∧ (∀ k Lk, (LoopInfo.analyze cexCfg cexDom).loops[k]? = some Lk → k ≠ 2 →
            Lk.header ≠ (⟨5, [5], [(5, 5)], [5], some 0, []⟩ : Loop).header →
            (∀ x ∈ (⟨5, [5], [(5, 5)], [5], some 0, []⟩ : Loop).blocks, x ∈ Lk.blocks) →
            Li.blocks.length ≤ Lk.blocks.length)
        ∧ (∀ k Lk, (LoopInfo.analyze cexCfg cexDom).loops[k]? = some Lk → k ≠ 2 →
            Lk.header ≠ (⟨5, [5], [(5, 5)], [5], some 0, []⟩ : Loop).header →
            (∀ x ∈ (⟨5, [5], [(5, 5)], [5], some 0, []⟩ : Loop).blocks, x ∈ Lk.blocks) →
            k < 0 → Li.blocks.length < Lk.blocks.length)) :=
  C5_parent_selection cexCfg cexDom 0 2 ⟨5, [5], [(5, 5)], [5], some 0, []⟩ (by decide)

theorem buildObjectIndex_absent (objs : List (String × JmapObject))
    (acc : List (Nat × String)) (a : Nat) (h : ∀ p ∈ objs, p.2.address ≠ a) :
    lookupA (buildObjectIndex objs acc) a = lookupA acc a := by
  induction objs generalizing acc with
  | nil => rfl
  | cons q t ih =>
    rw [buildObjectIndex, ih _ (fun p hp => h p (List.mem_cons_of_mem q hp)),
      lookupA_insertA_ne _ _ (fun he => h q (List.mem_cons_self q t) he.symm)]

theorem buildObjectIndex_present (objs : List (String × JmapObject))
    (acc : List (Nat × String))
    (hnd : (objs.map (fun p => p.2.address)).Nodup) :
    ∀ p ∈ objs, lookupA (buildObjectIndex objs acc) p.2.address = some p.1 := by
  induction objs generalizing acc with
  | nil => intro p hp; simp at hp
  | cons q t ih =>
    simp only [List.map_cons, List.nodup_cons] at hnd
    intro p hp
    rcases List.mem_cons.mp hp with hp | hp
    · subst hp
      rw [buildObjectIndex,
        buildObjectIndex_absent t _ p.2.address
          (fun r hr he => hnd.1 (he ▸ List.mem_map_of_mem (fun s => s.2.address) hr)),
        lookupA_insertA_self]
    · exact ih _ hnd.2 p hp

theorem buildObjectIndex_origin (objs : List (String × JmapObject))
    (acc : List (Nat × String)) (a : Nat) (path : String)
    (h : lookupA (buildObjectIndex objs acc) a = some path) :
    (∃ p ∈ objs, p.2.address = a ∧ p.1 = path) ∨ lookupA acc a = some path := by
  induction objs generalizing acc with
  | nil => exact Or.inr h
  | cons q t ih =>
    rw [buildObjectIndex] at h
    rcases ih _ h with hc | hc
    · obtain ⟨p, hp, hpa, hpp⟩ := hc
      exact Or.inl ⟨p, List.mem_cons_of_mem q hp, hpa, hpp⟩
    · by_cases he : a = q.2.address
      · subst he
        rw [lookupA_insertA_self] at hc
        exact Or.inl ⟨q, List.mem_cons_self q t, rfl, Option.some_inj.mp hc⟩
      · rw [lookupA_insertA_ne _ _ he] at hc
        exact Or.inr hc

/-- C8: on a metadata document whose paths are distinct keys and whose objects
carry pairwise distinct addresses, (1) every object contributes exactly its
own `address → path` binding to the object index, (2) `resolve_object a`
returns `some {path, object}` exactly when `(path, object)` is an entry of the
document and `object.address = a`, and (3) it returns `none` exactly when no
object of the document has address `a`. -/
theorem C8_resolve_object (j : Jmap)
    (hkeys : (j.objects.map Prod.fst).Nodup)
    (haddr : (j.objects.map (fun p => p.2.address)).Nodup) :
    (∀ p ∈ j.objects,
        lookupA (AddressIndex.new j).object_index p.2.address = some p.1) ∧
    (∀ a info, (AddressIndex.new j).resolve_object a = some info ↔
        ((info.path, info.object) ∈ j.objects ∧ info.object.address = a)) ∧
    (∀ a, (AddressIndex.new j).resolve_object a = none ↔
        ∀ p ∈ j.objects, p.2.address ≠ a) := by
  have hpresent := buildObjectIndex_present j.objects [] haddr
  have hiff : ∀ a info, (AddressIndex.new j).resolve_object a = some info ↔
      ((info.path, info.object) ∈ j.objects ∧ info.object.address = a) := by
    intro a info
    constructor
    · intro h
      rw [AddressIndex.resolve_object] at h
      cases hidx : lookupA (AddressIndex.new j).object_index a with
      | none => rw [hidx] at h; simp at h
      | some path =>
        rw [hidx] at h
        have h' : Option.map (fun obj => ObjectInfo.mk path obj)
            (lookupA j.objects path) = some info := h
        cases hdoc : lookupA j.objects path with
        | none =>
          rw [hdoc] at h'
          exact Option.noConfusion h'
        | some obj =>
          rw [hdoc] at h'
          have h'' : some (ObjectInfo.mk path obj) = some info := h'
          have hinfo : info = ⟨path, obj⟩ := (Option.some_inj.mp h'').symm
          rcases buildObjectIndex_origin j.objects [] a path hidx with hc | hc
          · obtain ⟨p, hp, hpa, hpp⟩ := hc
            have hkey : lookupA j.objects path = some p.2 := by
              rw [← hpp]
              exact lookupA_eq_of_mem hkeys (by rw [hpp, ← hpp]; exact hp)
            have hobj : obj = p.2 := by
              rw [hdoc] at hkey
              exact Option.some_inj.mp hkey
            subst hinfo
            refine ⟨?_, ?_⟩
            · show (path, obj) ∈ j.objects
              rw [hobj, ← hpp]
              exact hp
            · show obj.address = a
              rw [hobj]
              exact hpa
          · simp [lookupA] at hc
    · rintro ⟨hm, ha⟩
      rw [AddressIndex.resolve_object]
      have hidx : lookupA (AddressIndex.new j).object_index a = some info.path := by
        have := hpresent (info.path, info.object) hm
        rw [show ((info.path, info.object) : String × JmapObject).2.address
              = info.object.address from rfl, ha] at this
        exact this
      rw [hidx]
      show Option.map (fun obj => ObjectInfo.mk info.path obj)
          (lookupA j.objects info.path) = some info
      rw [lookupA_eq_of_mem hkeys hm]
      rfl
  refine ⟨fun p hp => hpresent p hp, hiff, fun a => ?_⟩
  constructor
  · intro h p hp he
    have := (hiff a ⟨p.1, p.2⟩).mpr ⟨hp, he⟩
    rw [h] at this
    exact Option.noConfusion this
  · intro h
    rw [AddressIndex.resolve_object,
      show (AddressIndex.new j).object_index = buildObjectIndex j.objects [] from rfl,
      buildObjectIndex_absent j.objects [] a h]
    rfl

/-- Witness for C8 on a two-object document. -/
theorem C8_resolve_object_witness :
    (AddressIndex.new ⟨[("A", ⟨10⟩), ("B", ⟨20⟩)]⟩).resolve_object 20
      = some ⟨"B", ⟨20⟩⟩ :=
  ((C8_resolve_object ⟨[("A", ⟨10⟩), ("B", ⟨20⟩)]⟩ (by decide) (by decide)).2.1
      20 ⟨"B", ⟨20⟩⟩).mpr (by decide)
